import Mathlib

/-!
Verification of the payment-completion and enrollment-commit pipeline of the
LMS backend (OrderService, PaymentService, VNPayUtil, VNPayConfig).

The TypeScript sources are shallowly embedded: strings are Lean strings,
JavaScript numbers occurring as database ids are exact integers, prices are
exact rationals, the relational database state is an explicit record of row
lists threaded through each operation, and a thrown exception is an
`Except.error`.  External collaborators (the HMAC primitive, the runtime
configuration, the request IP) enter as explicit parameters.
-/

namespace LMS

/-! ## Character and string primitives modelling the JavaScript runtime -/

/-- Lowercase an ASCII uppercase letter; every other character is unchanged.
Used for the primary (case-insensitive) level of the default-locale string
comparison performed by JavaScript `localeCompare`. -/
def toLowerAscii (c : Char) : Char :=
  if 65 ≤ c.toNat ∧ c.toNat ≤ 90 then Char.ofNat (c.toNat + 32) else c

/-- Case rank of a character: every non-uppercase character ranks 0, an ASCII
uppercase letter ranks 1.  This models the tertiary level of the default
locale collation, where for equal base letters lowercase sorts first. -/
def caseRank (c : Char) : Nat :=
  if 65 ≤ c.toNat ∧ c.toNat ≤ 90 then 1 else 0

/-- Lexicographic comparison of two lists through a numeric key. -/
def lexCompare (f : α → Nat) : List α → List α → Ordering
  | [], [] => .eq
  | [], _ :: _ => .lt
  | _ :: _, [] => .gt
  | a :: as, b :: bs =>
    if f a < f b then .lt
    else if f b < f a then .gt
    else lexCompare f as bs

/-- Model of JavaScript `a.localeCompare(b)` under the default (ICU root/en)
collation, restricted to the ASCII letters, digits and punctuation appearing
in this codebase's parameter keys: the primary level compares the lowercased
character sequences by code point, and ties are broken at the tertiary level
where lowercase precedes uppercase. -/
def localeCompare (a b : String) : Ordering :=
  match lexCompare Char.toNat (a.data.map toLowerAscii) (b.data.map toLowerAscii) with
  | .eq => lexCompare id (a.data.map caseRank) (b.data.map caseRank)
  | o => o

/-- The non-strict order induced by the `localeCompare` comparator, as used by
`Array.prototype.sort(comparator)`. -/
def localeLe (a b : String) : Bool :=
  match localeCompare a b with
  | .gt => false
  | _ => true

/-- Byte-value (code-point) order on strings; for UTF-8 encoded strings,
code-point order and byte order coincide. -/
def byteLe (a b : String) : Bool :=
  match lexCompare Char.toNat a.data b.data with
  | .gt => false
  | _ => true

/-- Insert an element into a list in front of the first element it is `le` to. -/
def insertLe (le : α → α → Bool) (x : α) : List α → List α
  | [] => [x]
  | y :: ys => if le x y then x :: y :: ys else y :: insertLe le x ys

/-- Insertion sort by a boolean comparator; models the effect of
`Array.prototype.sort` with a consistent comparator. -/
def sortLe (le : α → α → Bool) : List α → List α
  | [] => []
  | x :: xs => insertLe le x (sortLe le xs)

/-- Decimal digit character (defined by cases so that its arithmetic
properties are provable without `Char.ofNat` reasoning). -/
def decDigit : Nat → Char
  | 0 => '0'
  | 1 => '1'
  | 2 => '2'
  | 3 => '3'
  | 4 => '4'
  | 5 => '5'
  | 6 => '6'
  | 7 => '7'
  | 8 => '8'
  | _ => '9'

/-- Uppercase hexadecimal digit character. -/
def hexDigitUpper (n : Nat) : Char :=
  if n < 10 then Char.ofNat (48 + n) else Char.ofNat (55 + n)

/-- Characters left unescaped by JavaScript `encodeURIComponent`:
ASCII alphanumerics and `- _ . ! ~ * ' ( )`. -/
def isUnescapedURI (c : Char) : Bool :=
  (65 ≤ c.toNat && c.toNat ≤ 90) || (97 ≤ c.toNat && c.toNat ≤ 122) ||
  (48 ≤ c.toNat && c.toNat ≤ 57) ||
  c == '-' || c == '_' || c == '.' || c == '!' || c == '~' || c == '*' ||
  c == Char.ofNat 39 || c == '(' || c == ')'

/-- UTF-8 bytes of a character, as natural numbers. -/
def utf8Bytes (c : Char) : List Nat :=
  let n := c.toNat
  if n < 128 then [n]
  else if n < 2048 then [192 + n / 64, 128 + n % 64]
  else if n < 65536 then [224 + n / 4096, 128 + (n / 64) % 64, 128 + n % 64]
  else [240 + n / 262144, 128 + (n / 4096) % 64, 128 + (n / 64) % 64, 128 + n % 64]

/-- Percent-encoding of one character as by `encodeURIComponent`. -/
def percentEncodeChar (c : Char) : List Char :=
  if isUnescapedURI c then [c]
  else (utf8Bytes c).flatMap (fun b => ['%', hexDigitUpper (b / 16), hexDigitUpper (b % 16)])

/-- Model of JavaScript `encodeURIComponent`. -/
def encodeURIComponent (s : String) : String :=
  String.mk (s.data.flatMap percentEncodeChar)

/-- Fuel-driven digit accumulator: prepend the decimal digits of `n` (least
significant digit first into `acc`) until `n` reaches 0.  The fuel is only a
structural-recursion device; `natToChars` always supplies enough. -/
def natToCharsGo : Nat → Nat → List Char → List Char
  | 0, _, acc => acc
  | fuel + 1, n, acc =>
    if n = 0 then acc else natToCharsGo fuel (n / 10) (decDigit (n % 10) :: acc)

/-- Decimal digit characters of a natural number, most significant first. -/
def natToChars (n : Nat) : List Char :=
  if n = 0 then ['0'] else natToCharsGo (n + 1) n []

/-- Model of JavaScript template interpolation of an integral number into a
string: plain decimal representation, with a leading minus sign for negative
values (exact within the double-precision safe-integer range, which covers
every id handled by this service). -/
def intToChars : Int → List Char
  | .ofNat n => natToChars n
  | .negSucc n => '-' :: natToChars (n + 1)

/-- String form of `intToChars`. -/
def intToString (i : Int) : String := String.mk (intToChars i)

/-- Decimal digit test. -/
def isDigitChar (c : Char) : Bool := 48 ≤ c.toNat && c.toNat ≤ 57

/-- Numeric value of a decimal digit character. -/
def digitVal (c : Char) : Nat := c.toNat - 48

/-- Parse the longest leading run of decimal digits; `none` when there is no
leading digit (JavaScript NaN). -/
def parseNatPre (s : List Char) : Option Nat :=
  let ds := s.takeWhile isDigitChar
  if ds.isEmpty then none
  else some (ds.foldl (fun a c => 10 * a + digitVal c) 0)

/-- Core of the `parseInt` model on character lists: skip leading whitespace,
accept an optional sign, then parse the longest leading decimal-digit run. -/
def jsParseIntChars (s : List Char) : Option Int :=
  match s.dropWhile Char.isWhitespace with
  | '-' :: rest => (parseNatPre rest).map (fun n => -(n : Int))
  | '+' :: rest => (parseNatPre rest).map (fun n => (n : Int))
  | rest => (parseNatPre rest).map (fun n => (n : Int))

/-- Model of JavaScript `parseInt` in base 10.  NaN is modelled as `none`.
The hexadecimal `0x` form of `parseInt` is not modelled: every token this
service parses is decimal. -/
def jsParseInt (s : String) : Option Int := jsParseIntChars s.data

/-- Does the list start with the given pattern? -/
def listStartsWith : List Char → List Char → Bool
  | [], _ => true
  | _ :: _, [] => false
  | a :: as, b :: bs => a == b && listStartsWith as bs

/-- Fuel-driven splitter core; the fuel is only a structural-recursion
device and `jsSplitChars` always supplies enough (one unit per character). -/
def jsSplitGo (c0 : Char) (ct : List Char) : Nat → List Char → List (List Char)
  | _, [] => [[]]
  | 0, s => [s]
  | fuel + 1, c :: rest =>
    if listStartsWith (c0 :: ct) (c :: rest) then
      [] :: jsSplitGo c0 ct fuel (List.drop ct.length rest)
    else
      match jsSplitGo c0 ct fuel rest with
      | [] => [[c]]
      | seg :: segs => (c :: seg) :: segs

/-- Model of JavaScript `String.prototype.split` with a non-empty string
separator, given as its head character `c0` and tail `ct`: scan left to
right, breaking at each leftmost occurrence of the separator.  As in
JavaScript, splitting the empty string yields one empty segment and the
result is never empty. -/
def jsSplitChars (c0 : Char) (ct : List Char) (s : List Char) : List (List Char) :=
  jsSplitGo c0 ct s.length s

/-- String wrapper for `jsSplitChars`; `jsSplit c0 ct s` models
`s.split(sep)` for the separator whose characters are `c0 :: ct`. -/
def jsSplit (c0 : Char) (ct : List Char) (s : String) : List String :=
  (jsSplitChars c0 ct s.data).map String.mk

/-! ## VNPayUtil (src/src/utils/VNPayUtil.ts) -/

/-- VNPayUtil.getPaymentURL (src/src/utils/VNPayUtil.ts lines 50-62): drop
entries whose value is empty (or null/undefined, not representable here),
sort the remaining entries by `localeCompare` on their keys, and join them as
key=encodeURIComponent(value) with ampersands; the key itself is
percent-encoded only when `encodeKey` is true.  The JavaScript `Map` argument
is modelled as the list of its entries in iteration (insertion) order. -/
def getPaymentURL (paramsMap : List (String × String)) (encodeKey : Bool) : String :=
  let sorted := sortLe (fun a b => localeLe a.1 b.1)
    (paramsMap.filter (fun p => p.2 != ""))
  String.intercalate "&"
    (sorted.map (fun p =>
      (if encodeKey then encodeURIComponent p.1 else p.1) ++ "=" ++ encodeURIComponent p.2))

/-- Modelled from the spec (§4.1), the reference canonicalizer the code is
compared against: drop entries with empty values; sort the remaining entries
ascending by byte value of the key; join as key=percent_encode(value) with
ampersand; the key is percent-encoded only in the display-URL mode. -/
def canonicalizeSpec (params : List (String × String)) (encodeKey : Bool) : String :=
  let sorted := sortLe (fun a b => byteLe a.1 b.1)
    (params.filter (fun p => p.2 != ""))
  String.intercalate "&"
    (sorted.map (fun p =>
      (if encodeKey then encodeURIComponent p.1 else p.1) ++ "=" ++ encodeURIComponent p.2))

/-- VNPayUtil.hmacSHA512: the HMAC-SHA512 computation itself is an external
cryptographic primitive, modelled by the function parameter `core`; the
wrapper returns "" when the key or the data is empty, as the source throws
for those inputs, catches its own error and returns ''. -/
def hmacSHA512 (core : String → String → String) (key data : String) : String :=
  if key == "" || data == "" then "" else core key data

/-! ## Order-context codec

The purchase context travels through the payment gateway as the opaque
`vnp_OrderInfo` token.  Encoding lives in OrderService.processingPurchaseOrder
(src/unnamed/part_012 lines 77-90), decoding inline in
OrderService.completeOrder (lines 342-358). -/

/-- Result of the inline decoding in completeOrder.  `idUser` and each course
entry are `parseInt` results, where `none` models NaN; `idDiscount` is `some`
exactly when the source's discount branch is taken (the split produced
exactly three segments and the third is non-empty), holding that segment's
`parseInt` result. -/
structure DecodedOrderInfo where
  idUser : Option Int
  idCourses : List (Option Int)
  idDiscount : Option (Option Int)
deriving Repr, DecidableEq

/-- Order-info token construction from
OrderService.processingPurchaseOrder (src/unnamed/part_012 lines 77-90):
start with the user id and a double hash, append each course id followed by
one hash, and append one further hash plus the discount id when a discount is
present. -/
def encodeOrderInfo (idUser : Int) (idCourses : List Int) (idDiscount : Option Int) : String :=
  let base := intToString idUser ++ "##"
  let withCourses := idCourses.foldl (fun acc c => acc ++ intToString c ++ "#") base
  match idDiscount with
  | none => withCourses
  | some d => withCourses ++ "#" ++ intToString d

/-- Order-info token decoding from OrderService.completeOrder
(src/unnamed/part_012 lines 342-358): split on double hash; `parseInt` the
first segment as the user id; split the second segment on single hash,
dropping empty (falsy) tokens, and `parseInt` each survivor as a course id;
when there are exactly three segments and the third is non-empty (truthy),
`parseInt` it as the discount id.  The result is `none` when the token
contains no double hash at all: the second segment is then `undefined` in the
source and calling `.split` on it throws a TypeError. -/
def decodeOrderInfo (orderInfo : String) : Option DecodedOrderInfo :=
  match jsSplit '#' ['#'] orderInfo with
  | [] => none
  | [_] => none
  | seg0 :: seg1 :: rest =>
    some
      { idUser := jsParseInt seg0
        idCourses := ((jsSplit '#' [] seg1).filter (fun t => t != "")).map jsParseInt
        idDiscount :=
          match rest with
          | [seg2] => if seg2 != "" then some (jsParseInt seg2) else none
          | _ => none }

/-! ## Exact rational arithmetic helpers

JavaScript number arithmetic on the decimal(10,2) prices handled by this
pipeline is exact; it is modelled by exact rational arithmetic.  The
operations are written out through `mkRat` so that concrete runs reduce
inside the kernel; they are provably equal to the `Rat` field operations
(lemmas `qadd_eq`, `qsub_eq`, `qdiv100_eq` below). -/

/-- Exact rational addition. -/
def qadd (a b : Rat) : Rat :=
  mkRat (a.num * (b.den : Int) + b.num * (a.den : Int)) (a.den * b.den)

/-- Exact rational subtraction. -/
def qsub (a b : Rat) : Rat :=
  mkRat (a.num * (b.den : Int) - b.num * (a.den : Int)) (a.den * b.den)

/-- The exact value of the JavaScript expression `a / 100` for an integral
`a` (the gateway amount is in minor currency units). -/
def qdiv100 (a : Int) : Rat := mkRat a 100

/-- Multiplication by 100 (building the minor-unit amount). -/
def qmul100 (a : Rat) : Rat := mkRat (a.num * 100) a.den

/-! ## Database model

The relational state read and written by the order pipeline, one list of rows
per table.  Ids are exact integers; prices are exact rationals (the numeric
columns hold small decimal values for which JavaScript number arithmetic is
exact).  `OrderRow.totalPrice` is an `Option Rat` because the source can
insert the result of `parseInt(...) / 100`, which is NaN (`none`) when the
amount parameter is malformed. -/

structure CartRow where
  cartId : Int
  studentId : Int
deriving Repr, DecidableEq

structure CartItemRow where
  cartId : Int
  courseId : Int
deriving Repr, DecidableEq

structure OrderRow where
  orderId : Int
  studentId : Int
  totalPrice : Option Rat
deriving Repr, DecidableEq

structure OrderItemRow where
  orderId : Int
  courseId : Int
  price : Rat
deriving Repr, DecidableEq

structure EnrollmentRow where
  studentId : Int
  courseId : Int
  isComplete : Bool
  currentSectionPosition : Int
deriving Repr, DecidableEq

structure StudentDiscountRow where
  studentId : Int
  discountId : Int
deriving Repr, DecidableEq

structure CourseRow where
  courseId : Int
  price : Rat
deriving Repr, DecidableEq

structure DiscountRow where
  discountId : Int
  value : Rat
deriving Repr, DecidableEq

/-- The database: carts, cart_items, orders, order_items, enrollments,
student_discount, course and discount tables, plus the order_id sequence. -/
structure DBState where
  carts : List CartRow
  cartItems : List CartItemRow
  orders : List OrderRow
  orderItems : List OrderItemRow
  enrollments : List EnrollmentRow
  studentDiscounts : List StudentDiscountRow
  courses : List CourseRow
  discounts : List DiscountRow
  nextOrderId : Int
deriving Repr, DecidableEq

/-- SELECT price FROM course WHERE course_id = $1 (first row). -/
def findCoursePrice (db : DBState) (courseId : Int) : Option Rat :=
  (db.courses.find? (fun r => r.courseId == courseId)).map (fun r => r.price)

/-- Is there an enrollments row for (studentId, courseId)?  Models the
non-emptiness of SELECT enrollment_id FROM enrollments WHERE ... . -/
def enrolledB (db : DBState) (studentId courseId : Int) : Bool :=
  db.enrollments.any (fun e => e.studentId == studentId && e.courseId == courseId)

/-! ## OrderService request/response DTOs (src/src/models) -/

structure CheckoutRequest where
  idCart : Int
  idCourses : List Int
  idDiscount : Option Int
deriving Repr, DecidableEq

structure CheckoutResponse where
  totalPrice : Rat
  discountPrice : Rat
  finalPrice : Rat
deriving Repr, DecidableEq

structure PurchaseOrderRequest where
  idUser : Int
  checkoutReq : CheckoutRequest
  prices : CheckoutResponse
deriving Repr, DecidableEq

structure VNPayResponse where
  code : String
  message : String
  paymentUrl : String
deriving Repr, DecidableEq

/-! ## OrderService.checkoutOrder (src/unnamed/part_012 lines 22-67) -/

/-- The price-summation loop of checkoutOrder: starting from the running
total `acc` (0 at the call site), look each course up and add its price; the
first missing course aborts the whole computation with the source's error
message. -/
def sumCoursePrices (db : DBState) (acc : Rat) : List Int → Except String Rat
  | [] => .ok acc
  | c :: cs =>
    match db.courses.find? (fun r => r.courseId == c) with
    | none => .error ("Course with ID " ++ intToString c ++ " not found. Please update cart.")
    | some course => sumCoursePrices db (qadd acc course.price) cs

/-- OrderService.checkoutOrder: total the current catalog prices of the
requested courses, look up the flat discount value when a discount id is
given (error when it does not exist), and return
(totalPrice, discountPrice, finalPrice = totalPrice - discountPrice). -/
def checkoutOrder (db : DBState) (checkoutReq : CheckoutRequest) : Except String CheckoutResponse :=
  match sumCoursePrices db 0 checkoutReq.idCourses with
  | .error e => .error e
  | .ok totalPrice =>
    match checkoutReq.idDiscount with
    | none => .ok ⟨totalPrice, 0, qsub totalPrice 0⟩
    | some idDiscount =>
      match db.discounts.find? (fun r => r.discountId == idDiscount) with
      | none => .error "Discount does not exist"
      | some discount => .ok ⟨totalPrice, discount.value, qsub totalPrice discount.value⟩

/-! ## OrderService.copyCartToOrder (src/unnamed/part_012 lines 372-497) -/

/-- The per-cart-item loop of copyCartToOrder.  For each cart item whose
course id is in the purchase list (`courseIds` holds the `parseInt` results,
where `none` is NaN and can never equal a stored course id): skip it when the
student is already enrolled; otherwise look up the course, skipping the item
with a warning when the course no longer exists, and otherwise insert an
order_items row and an enrollments row and record the course id for cart
removal.  Returns the updated state and the recorded `cartItemsToDelete`. -/
def processCartItems (studentId orderId : Int) (courseIds : List (Option Int)) :
    List CartItemRow → DBState → List Int → DBState × List Int
  | [], db, toDelete => (db, toDelete)
  | ci :: rest, db, toDelete =>
    if courseIds.contains (some ci.courseId) then
      if enrolledB db studentId ci.courseId then
        processCartItems studentId orderId courseIds rest db toDelete
      else
        match findCoursePrice db ci.courseId with
        | none => processCartItems studentId orderId courseIds rest db toDelete
        | some coursePrice =>
          processCartItems studentId orderId courseIds rest
            { db with
                orderItems := db.orderItems ++ [⟨orderId, ci.courseId, coursePrice⟩]
                enrollments := db.enrollments ++ [⟨studentId, ci.courseId, false, 1⟩] }
            (toDelete ++ [ci.courseId])
    else
      processCartItems studentId orderId courseIds rest db toDelete

/-- The body of copyCartToOrder's transaction: resolve the student's cart
(error when none), load its items (error when empty), insert the orders
header row, run the per-item loop, and batch-delete the recorded cart items
of this cart. -/
def copyCartToOrderTx (studentId : Int) (courseIds : List (Option Int))
    (totalPrice : Option Rat) (db : DBState) : Except String DBState :=
  match db.carts.filter (fun c => c.studentId == studentId) with
  | [] => .error "Cart not found"
  | cart :: _ =>
    let cartId := cart.cartId
    let cartItems := db.cartItems.filter (fun ci => ci.cartId == cartId)
    if cartItems.isEmpty then .error "No items in the cart"
    else
      let orderId := db.nextOrderId
      let db1 : DBState :=
        { db with
            orders := db.orders ++ [⟨orderId, studentId, totalPrice⟩]
            nextOrderId := orderId + 1 }
      let r := processCartItems studentId orderId courseIds cartItems db1 []
      let db3 : DBState :=
        if r.2.isEmpty then r.1
        else { r.1 with
                 cartItems := r.1.cartItems.filter
                   (fun ci => !(ci.cartId == cartId && r.2.contains ci.courseId)) }
      .ok db3

/-- OrderService.copyCartToOrder: the transaction body under the
startTransaction / commitTransaction / rollbackTransaction wrapper.  On any
error the transaction is rolled back, so the returned state is the input
state unchanged and the error is rethrown. -/
def copyCartToOrder (studentId : Int) (courseIds : List (Option Int))
    (totalPrice : Option Rat) (db : DBState) : DBState × Except String Unit :=
  match copyCartToOrderTx studentId courseIds totalPrice db with
  | .ok db1 => (db1, .ok ())
  | .error e => (db, .error e)

/-- OrderService.deleteDiscountFromStudent (src/unnamed/part_012 lines
502-517): delete the (studentId, discountId) rows from student_discount.
Any error is caught and swallowed, so the operation never fails; a NaN
discount id (`none`, possible because the caller passes a `parseInt` result)
matches no row. -/
def deleteDiscountFromStudent (discountId : Option Int) (studentId : Int)
    (db : DBState) : DBState :=
  { db with
      studentDiscounts := db.studentDiscounts.filter
        (fun r => !(r.studentId == studentId && some r.discountId == discountId)) }

/-! ## OrderService.completeOrder (src/unnamed/part_012 lines 316-367) -/

/-- Record field access `params[k]` on the callback parameter object,
modelled as the entry list of the object (keys unique). -/
def jsGet (m : List (String × String)) (k : String) : Option String :=
  (m.find? (fun p => p.1 == k)).map (fun p => p.2)

/-- The `delete params[k]` statement. -/
def jsDelete (m : List (String × String)) (k : String) : List (String × String) :=
  m.filter (fun p => p.1 != k)

/-- OrderService.completeOrder: extract and remove the vnp_SecureHash
parameter, rejecting when it is absent or empty (falsy); recompute the HMAC
signature over the canonicalized remaining parameters and reject on mismatch;
`parseInt` the amount; decode the vnp_OrderInfo context token (a token
without a double hash makes the source call `.split` on `undefined`, a
TypeError); commit the purchase via copyCartToOrder with amount / 100; and
finally, when the context carried a non-empty discount segment, delete the
consumed student discount.  A NaN user id (`none`) is rejected at the cart
lookup: no carts row can match it — the driver refuses the NaN parameter in
the source, and either way the transaction performs no write. -/
def completeOrder (core : String → String → String) (secretKey : String)
    (paymentParams : List (String × String)) (db : DBState) :
    DBState × Except String Unit :=
  let suppliedHash := jsGet paymentParams "vnp_SecureHash"
  let params := jsDelete paymentParams "vnp_SecureHash"
  match suppliedHash with
  | none => (db, .error "vnp_SecureHash is required")
  | some suppliedHash =>
    if suppliedHash == "" then (db, .error "vnp_SecureHash is required")
    else
      let hashData := getPaymentURL params false
      let vnpSecureHash := hmacSHA512 core secretKey hashData
      if vnpSecureHash != suppliedHash then (db, .error "vnp_SecureHash is invalid")
      else
        let totalPrice := jsParseInt ((jsGet params "vnp_Amount").getD "undefined")
        match jsGet params "vnp_OrderInfo" with
        | none => (db, .error "TypeError: orderInfo is undefined")
        | some orderInfo =>
          match decodeOrderInfo orderInfo with
          | none => (db, .error "TypeError: infoOrder[1] is undefined")
          | some info =>
            match info.idUser with
            | none => (db, .error "Cart not found")
            | some idUser =>
              match copyCartToOrder idUser info.idCourses
                  (totalPrice.map qdiv100) db with
              | (db1, .error e) => (db1, .error e)
              | (db1, .ok _) =>
                match info.idDiscount with
                | some idDiscount => (deleteDiscountFromStudent idDiscount idUser db1, .ok ())
                | none => (db1, .ok ())

/-! ## PaymentService.createVnPayPayment and
OrderService.processingPurchaseOrder (src/src/services/PaymentService.ts
lines 38-58, src/unnamed/part_012 lines 72-109) -/

/-- The environmental inputs of payment-URL creation: the configuration
parameter map produced by VNPayConfigService.getVNPayConfig() (version,
command, terminal code, currency, random transaction reference, order type,
locale, return URL, create/expire dates), the caller's IP address, the
gateway URL, the HMAC secret and the HMAC primitive. -/
structure VNPayEnv where
  cfgParams : List (String × String)
  ipAddr : String
  payUrl : String
  secretKey : String
  hmacCore : String → String → String

/-- `Map.set`: overwrite the value in place when the key exists, append the
entry otherwise. -/
def mapSet (m : List (String × String)) (k v : String) : List (String × String) :=
  if m.any (fun p => p.1 == k) then m.map (fun p => if p.1 == k then (k, v) else p)
  else m ++ [(k, v)]

/-- String rendering of a JavaScript number, restricted to the integral case
(exact decimal digits); the pipeline only renders integral minor-unit amounts
here.  Non-integral values render as num/den — never exercised by any claim. -/
def ratToJsString (q : Rat) : String :=
  if q.den == 1 then intToString q.num
  else intToString q.num ++ "/" ++ intToString (q.den : Int)

/-- PaymentService.createVnPayPayment: extend the configuration map with the
minor-unit amount (amount * 100), the order-info token and the IP address;
build the display URL (keys percent-encoded) and the signing string (keys
plain); HMAC-sign the latter; and return the redirect URL carrying the
signature. -/
def createVnPayPayment (env : VNPayEnv) (amount : Rat) (orderInfo : String) : VNPayResponse :=
  let m1 := mapSet env.cfgParams "vnp_Amount" (ratToJsString (qmul100 amount))
  let m2 := mapSet m1 "vnp_OrderInfo" orderInfo
  let m3 := mapSet m2 "vnp_IpAddr" env.ipAddr
  let queryUrl := getPaymentURL m3 true
  let hashData := getPaymentURL m3 false
  let vnpSecureHash := hmacSHA512 env.hmacCore env.secretKey hashData
  { code := "ok"
    message := "success"
    paymentUrl := env.payUrl ++ "?" ++ queryUrl ++ "&vnp_SecureHash=" ++ vnpSecureHash }

/-- OrderService.processingPurchaseOrder: build the order-info token from the
user id, course ids and optional discount id; recompute the quote with
checkoutOrder; reject with the price-mismatch error when any of the three
declared price fields differs from the recomputed quote; otherwise create the
VNPay payment for the computed final price. -/
def processingPurchaseOrder (env : VNPayEnv) (db : DBState)
    (purchaseOrderDTO : PurchaseOrderRequest) : Except String VNPayResponse :=
  let orderInfo := encodeOrderInfo purchaseOrderDTO.idUser
    purchaseOrderDTO.checkoutReq.idCourses purchaseOrderDTO.checkoutReq.idDiscount
  match checkoutOrder db purchaseOrderDTO.checkoutReq with
  | .error e => .error e
  | .ok checkoutResponse =>
    if checkoutResponse.totalPrice ≠ purchaseOrderDTO.prices.totalPrice
        ∨ checkoutResponse.finalPrice ≠ purchaseOrderDTO.prices.finalPrice
        ∨ checkoutResponse.discountPrice ≠ purchaseOrderDTO.prices.discountPrice then
      .error "Price mismatch error"
    else .ok (createVnPayPayment env checkoutResponse.finalPrice orderInfo)

/-! ## Amended reference canonicalizer (for the C6 comparison) -/

/-- Modelled from the spec (§4.1) with the sort order amended to the
comparator the code actually uses: drop entries with empty values, sort the
survivors ascending by the default-locale comparator on their keys — using a
different sorting algorithm than the code's, so that agreement is a real
statement about the order — and join as key=percent_encode(value) with
ampersand, percent-encoding the key only in display-URL mode. -/
def canonicalizeSpecLC (params : List (String × String)) (encodeKey : Bool) : String :=
  let sorted := (params.filter (fun p => p.2 != "")).mergeSort (fun a b => localeLe a.1 b.1)
  String.intercalate "&"
    (sorted.map (fun p =>
      (if encodeKey then encodeURIComponent p.1 else p.1) ++ "=" ++ encodeURIComponent p.2))

/-! ## Concrete fixtures for the scenario runs -/

/-- The Scenario A database: student 123 owns cart 55 holding courses 10 and
20, priced 100 and 150, and has been assigned discount 789 worth 5. -/
def scenarioDB : DBState :=
  { carts := [⟨55, 123⟩]
    cartItems := [⟨55, 10⟩, ⟨55, 20⟩]
    orders := []
    orderItems := []
    enrollments := []
    studentDiscounts := [⟨123, 789⟩]
    courses := [⟨10, 100⟩, ⟨20, 150⟩]
    discounts := [⟨789, 5⟩]
    nextOrderId := 1 }

/-- A concrete instantiation of the external HMAC primitive, used to run the
pipeline on closed inputs. -/
def hmacConst : String → String → String := fun _ _ => "d"

/-- The Scenario A callback parameters.  The supplied vnp_SecureHash value
"d" equals the HMAC (under `hmacConst` with secret "k") of the canonicalized
remaining parameters, so the callback is validly signed. -/
def scenarioParams : List (String × String) :=
  [("vnp_Amount", "24500"), ("vnp_OrderInfo", "123##10#20##789"),
   ("vnp_TxnRef", "12345678"), ("vnp_SecureHash", "d")]

/-- A database on which the quote goes negative: one course priced 3, one
discount worth 5. -/
def negDB : DBState :=
  { carts := [⟨55, 123⟩]
    cartItems := [⟨55, 1⟩]
    orders := []
    orderItems := []
    enrollments := []
    studentDiscounts := [⟨123, 7⟩]
    courses := [⟨1, 3⟩]
    discounts := [⟨7, 5⟩]
    nextOrderId := 1 }

/-- A concrete payment environment for closed runs of the purchase path. -/
def envC : VNPayEnv :=
  { cfgParams := [("vnp_Version", "2.1.0"), ("vnp_TmnCode", "T")]
    ipAddr := "1.2.3.4"
    payUrl := "https://sandbox.vnpayment.vn/paymentv2/vpcpay.html"
    secretKey := "k"
    hmacCore := hmacConst }

/-- A Scenario C purchase request: the declared finalPrice 244 differs from
the computed 245. -/
def dtoC : PurchaseOrderRequest :=
  { idUser := 123
    checkoutReq := ⟨55, [10, 20], some 789⟩
    prices := ⟨250, 5, 244⟩ }

/-! ## Proof-layer list combinators (used to state the splitting lemmas) -/

/-- Concatenation of segments with a separator between consecutive segments. -/
def joinSep (sep : List Char) : List (List Char) → List Char
  | [] => []
  | [x] => x
  | x :: y :: xs => x ++ sep ++ joinSep sep (y :: xs)

/-- The character data produced by the course-id loop of
processingPurchaseOrder: each course id rendered in decimal and followed by
one hash. -/
def coursesData : List Int → List Char
  | [] => []
  | c :: cs => intToChars c ++ '#' :: coursesData cs

/-! # Claims -/

/-- C1: Scenario A.  On the Scenario A database the quote for cart [10, 20]
with discount 789 returns totalPrice 250, discountPrice 5, finalPrice 245;
the Scenario A callback is validly signed (the supplied signature equals the
recomputed HMAC over the canonicalized remaining parameters); and completing
it succeeds, producing exactly the two new enrollments of student 123 in
courses 10 and 20, exactly one orders row with totalPrice 245, exactly the
two order_items rows 10 ↦ 100 and 20 ↦ 150, an emptied cart, and no
remaining (123, 789) student_discount row. -/
theorem claim_C1_scenarioA :
    checkoutOrder scenarioDB ⟨55, [10, 20], some 789⟩ = .ok ⟨250, 5, 245⟩
    ∧ jsGet scenarioParams "vnp_SecureHash" =
        some (hmacSHA512 hmacConst "k"
          (getPaymentURL (jsDelete scenarioParams "vnp_SecureHash") false))
    ∧ completeOrder hmacConst "k" scenarioParams scenarioDB =
        ({ scenarioDB with
             orders := [⟨1, 123, some 245⟩]
             orderItems := [⟨1, 10, 100⟩, ⟨1, 20, 150⟩]
             enrollments := [⟨123, 10, false, 1⟩, ⟨123, 20, false, 1⟩]
             cartItems := []
             studentDiscounts := []
             nextOrderId := 2 }, .ok ()) := by
  exact ⟨rfl, rfl, rfl⟩

/-- C2 counterexample: delivering the identical, validly signed Scenario A
callback a second time after a successful first commit does not complete
without a fatal error — the first commit emptied the cart, so the second
delivery fails with the source's 'No items in the cart' exception. -/
theorem claim_C2_counterexample :
    (completeOrder hmacConst "k" scenarioParams scenarioDB).2 = .ok ()
    ∧ (completeOrder hmacConst "k" scenarioParams
        (completeOrder hmacConst "k" scenarioParams scenarioDB).1).2 =
      .error "No items in the cart" :=
  ⟨rfl, rfl⟩

/-- C6 counterexample: on the map {Z ↦ 1, a ↦ 2} the code's canonicalizer
puts key a before key Z (default-locale comparison), while the spec's
byte-value reference puts Z (byte 90) before a (byte 97); the two outputs
differ. -/
theorem claim_C6_counterexample :
    getPaymentURL [("Z", "1"), ("a", "2")] false = "a=2&Z=1"
    ∧ canonicalizeSpec [("Z", "1"), ("a", "2")] false = "Z=1&a=2"
    ∧ getPaymentURL [("Z", "1"), ("a", "2")] false ≠
        canonicalizeSpec [("Z", "1"), ("a", "2")] false :=
  ⟨rfl, rfl, by decide⟩

/-- C7 counterexample: encoding studentId 123 with the empty course list and
discount 5 yields the token "123###5", which decodes to course list [5] with
no discount — not back to the encoded (123, [], discount 5). -/
theorem claim_C7_counterexample :
    encodeOrderInfo 123 [] (some 5) = "123###5"
    ∧ decodeOrderInfo (encodeOrderInfo 123 [] (some 5)) =
        some ⟨some 123, [some 5], none⟩
    ∧ decodeOrderInfo (encodeOrderInfo 123 [] (some 5)) ≠
        some ⟨some 123, [], some (some 5)⟩ :=
  ⟨rfl, rfl, by decide⟩

/-- C8: the decode path does not fail closed.  The non-integer course token
"20abc" is silently truncated by parseInt to course id 20, and a non-integer
student segment decodes to NaN; in neither case does the decoder report an
OrderContextInvalid error. -/
theorem claim_C8_lenient_decode :
    decodeOrderInfo "123##20abc#" = some ⟨some 123, [some 20], none⟩
    ∧ decodeOrderInfo "abc##10#" = some ⟨none, [some 10], none⟩ :=
  ⟨rfl, rfl⟩

/-- C9: the quote does not guard against negative finals: with one course
priced 3 and discount 7 worth 5, checkoutOrder succeeds and returns
finalPrice -2 < 0 instead of clamping to zero or rejecting. -/
theorem claim_C9_negative_finalPrice :
    checkoutOrder negDB ⟨55, [1], some 7⟩ = .ok ⟨3, 5, -2⟩
    ∧ ∃ r, checkoutOrder negDB ⟨55, [1], some 7⟩ = .ok r ∧ r.finalPrice < 0 := by
  have h1 : checkoutOrder negDB ⟨55, [1], some 7⟩ = .ok ⟨3, 5, -2⟩ := rfl
  exact ⟨h1, ⟨3, 5, -2⟩, h1, by norm_num⟩

/-- C3: the commit transaction is all-or-nothing: whenever copyCartToOrder
reports an error — from cart resolution, the cart-item load, or any later
step of its body — the returned database state is exactly the input state:
no Order, OrderItem or Enrollment row and no cart mutation survives. -/
theorem claim_C3_rollback (studentId : Int) (courseIds : List (Option Int))
    (totalPrice : Option Rat) (db : DBState) (e : String)
    (h : (copyCartToOrder studentId courseIds totalPrice db).2 = .error e) :
    (copyCartToOrder studentId courseIds totalPrice db).1 = db := by
  cases htx : copyCartToOrderTx studentId courseIds totalPrice db with
  | ok db1 => simp [copyCartToOrder, htx] at h
  | error e2 => simp [copyCartToOrder, htx]

/-- C3 witness: student 999 has no cart in the Scenario A database, so the
transaction aborts with 'Cart not found' and the state is unchanged. -/
theorem claim_C3_rollback_witness :
    (copyCartToOrder 999 [] none scenarioDB).1 = scenarioDB :=
  claim_C3_rollback 999 [] none scenarioDB "Cart not found" rfl

/-- C4: a callback whose vnp_SecureHash parameter is absent, or whose
recomputed HMAC over the canonicalized remaining parameters differs from the
supplied signature, is rejected with an error and the returned database
state is the input state unchanged — no Order, OrderItem, Enrollment, cart
or discount write of any kind. -/
theorem claim_C4_invalid_signature_rejected (core : String → String → String)
    (secretKey : String) (paymentParams : List (String × String)) (db : DBState)
    (h : jsGet paymentParams "vnp_SecureHash" = none
       ∨ ∃ s, jsGet paymentParams "vnp_SecureHash" = some s
            ∧ hmacSHA512 core secretKey
                (getPaymentURL (jsDelete paymentParams "vnp_SecureHash") false) ≠ s) :
    (completeOrder core secretKey paymentParams db).1 = db
    ∧ ∃ e, (completeOrder core secretKey paymentParams db).2 = .error e := by
  rcases h with h | ⟨s, hs, hne⟩
  · have hres : completeOrder core secretKey paymentParams db =
        (db, .error "vnp_SecureHash is required") := by
      simp [completeOrder, h]
    rw [hres]
    exact ⟨rfl, _, rfl⟩
  · by_cases hse : s = ""
    · subst hse
      have hres : completeOrder core secretKey paymentParams db =
          (db, .error "vnp_SecureHash is required") := by
        simp [completeOrder, hs]
      rw [hres]
      exact ⟨rfl, _, rfl⟩
    · have hres : completeOrder core secretKey paymentParams db =
          (db, .error "vnp_SecureHash is invalid") := by
        simp [completeOrder, hs, hse, hne]
      rw [hres]
      exact ⟨rfl, _, rfl⟩

/-- C4 witness: a callback supplying signature "x" where the recomputed
signature is "d" is rejected and leaves the Scenario A database unchanged. -/
theorem claim_C4_witness :
    (completeOrder hmacConst "k" [("vnp_Amount", "24501"), ("vnp_SecureHash", "x")]
        scenarioDB).1 = scenarioDB
    ∧ ∃ e, (completeOrder hmacConst "k"
        [("vnp_Amount", "24501"), ("vnp_SecureHash", "x")] scenarioDB).2 = .error e :=
  claim_C4_invalid_signature_rejected hmacConst "k"
    [("vnp_Amount", "24501"), ("vnp_SecureHash", "x")] scenarioDB
    (Or.inr ⟨"x", rfl, by decide⟩)

/-- C5: price verification is exact and gating.  Given the server-computed
quote, purchase processing fails with the price-mismatch error whenever any
one of the buyer-declared totalPrice, finalPrice or discountPrice differs
from the computation, and it returns a payment URL only when all three
declared fields equal the computation exactly — in which case the result is
exactly the VNPay payment built from the computed final price. -/
theorem claim_C5_price_gate (env : VNPayEnv) (db : DBState)
    (dto : PurchaseOrderRequest) (computed : CheckoutResponse)
    (hq : checkoutOrder db dto.checkoutReq = .ok computed) :
    ((computed.totalPrice ≠ dto.prices.totalPrice
        ∨ computed.finalPrice ≠ dto.prices.finalPrice
        ∨ computed.discountPrice ≠ dto.prices.discountPrice) →
      processingPurchaseOrder env db dto = .error "Price mismatch error")
    ∧ (∀ r, processingPurchaseOrder env db dto = .ok r →
        (computed.totalPrice = dto.prices.totalPrice
          ∧ computed.finalPrice = dto.prices.finalPrice
          ∧ computed.discountPrice = dto.prices.discountPrice)
        ∧ r = createVnPayPayment env computed.finalPrice
            (encodeOrderInfo dto.idUser dto.checkoutReq.idCourses
              dto.checkoutReq.idDiscount)) := by
  constructor
  · intro hmis
    simp only [processingPurchaseOrder, hq]
    rw [if_pos hmis]
  · intro r hr
    simp only [processingPurchaseOrder, hq] at hr
    by_cases hmis : computed.totalPrice ≠ dto.prices.totalPrice
        ∨ computed.finalPrice ≠ dto.prices.finalPrice
        ∨ computed.discountPrice ≠ dto.prices.discountPrice
    · rw [if_pos hmis] at hr
      exact absurd hr (by simp)
    · rw [if_neg hmis] at hr
      push_neg at hmis
      obtain ⟨h1, h2, h3⟩ := hmis
      refine ⟨⟨h1, h2, h3⟩, ?_⟩
      have := Except.ok.inj hr
      exact this.symm

/-- C5 witness: Scenario C — the quote computes finalPrice 245, the buyer
declares 244, and purchase processing fails with the price-mismatch error. -/
theorem claim_C5_witness :
    processingPurchaseOrder envC scenarioDB dtoC = .error "Price mismatch error" :=
  (claim_C5_price_gate envC scenarioDB dtoC ⟨250, 5, 245⟩ rfl).1
    (Or.inr (Or.inl (by norm_num [dtoC])))

/-! ## Order-theoretic properties of the locale comparator -/

theorem char_toNat_ofNat_lt {n : Nat} (h : n < 55296) : (Char.ofNat n).toNat = n := by
  unfold Char.ofNat
  rw [dif_pos (Or.inl h)]
  rfl

theorem char_toNat_injective {c₁ c₂ : Char} (h : c₁.toNat = c₂.toNat) : c₁ = c₂ :=
  Char.ext (UInt32.ext h)

/-- The pair (lowercased character, case rank) determines the character. -/
theorem toLowerAscii_caseRank_inj {c₁ c₂ : Char}
    (hl : toLowerAscii c₁ = toLowerAscii c₂) (hr : caseRank c₁ = caseRank c₂) :
    c₁ = c₂ := by
  unfold toLowerAscii at hl
  unfold caseRank at hr
  by_cases h1 : 65 ≤ c₁.toNat ∧ c₁.toNat ≤ 90
  · by_cases h2 : 65 ≤ c₂.toNat ∧ c₂.toNat ≤ 90
    · rw [if_pos h1, if_pos h2] at hl
      have e1 : (Char.ofNat (c₁.toNat + 32)).toNat = c₁.toNat + 32 :=
        char_toNat_ofNat_lt (by omega)
      have e2 : (Char.ofNat (c₂.toNat + 32)).toNat = c₂.toNat + 32 :=
        char_toNat_ofNat_lt (by omega)
      have := congrArg Char.toNat hl
      rw [e1, e2] at this
      exact char_toNat_injective (by omega)
    · rw [if_pos h1, if_neg h2] at hr
      simp at hr
  · by_cases h2 : 65 ≤ c₂.toNat ∧ c₂.toNat ≤ 90
    · rw [if_neg h1, if_pos h2] at hr
      simp at hr
    · rw [if_neg h1, if_neg h2] at hl
      exact hl

theorem lexCompare_cons_ne_gt (f : α → Nat) {a b : α} {as bs : List α} :
    lexCompare f (a :: as) (b :: bs) ≠ .gt ↔
      f a < f b ∨ (f a = f b ∧ lexCompare f as bs ≠ .gt) := by
  by_cases hab : f a < f b
  · simp [lexCompare, hab]
  · by_cases hba : f b < f a
    · simp [lexCompare, hab, hba, show ¬ f a = f b by omega]
    · simp [lexCompare, hab, hba, show f a = f b by omega]

theorem lexCompare_nil_ne_gt (f : α → Nat) (ys : List α) :
    lexCompare f [] ys ≠ .gt := by
  cases ys <;> simp [lexCompare]

theorem lexCompare_le_trans (f : α → Nat) :
    ∀ (xs ys zs : List α), lexCompare f xs ys ≠ .gt → lexCompare f ys zs ≠ .gt →
      lexCompare f xs zs ≠ .gt := by
  intro xs
  induction xs with
  | nil => exact fun ys zs _ _ => lexCompare_nil_ne_gt f zs
  | cons a as ih =>
    intro ys zs h1 h2
    cases ys with
    | nil => simp [lexCompare] at h1
    | cons b bs =>
      cases zs with
      | nil => simp [lexCompare] at h2
      | cons c cs =>
        rw [lexCompare_cons_ne_gt] at h1 h2 ⊢
        rcases h1 with h1 | ⟨he1, hr1⟩ <;> rcases h2 with h2 | ⟨he2, hr2⟩
        · exact Or.inl (lt_trans h1 h2)
        · exact Or.inl (he2 ▸ h1)
        · exact Or.inl (he1 ▸ h2)
        · exact Or.inr ⟨he1.trans he2, ih bs cs hr1 hr2⟩

theorem lexCompare_eq_iff (f : α → Nat) :
    ∀ (xs ys : List α), lexCompare f xs ys = .eq ↔ xs.map f = ys.map f := by
  intro xs
  induction xs with
  | nil => intro ys; cases ys <;> simp [lexCompare]
  | cons a as ih =>
    intro ys
    cases ys with
    | nil => simp [lexCompare]
    | cons b bs =>
      by_cases hab : f a < f b
      · simp [lexCompare, hab, show ¬ f a = f b by omega]
      · by_cases hba : f b < f a
        · simp [lexCompare, hab, hba, show ¬ f a = f b by omega]
        · simp [lexCompare, hab, hba, show f a = f b by omega, ih bs]

theorem lexCompare_ne_gt_antisymm (f : α → Nat) :
    ∀ (xs ys : List α), lexCompare f xs ys ≠ .gt → lexCompare f ys xs ≠ .gt →
      xs.map f = ys.map f := by
  intro xs
  induction xs with
  | nil =>
    intro ys h1 _
    cases ys with
    | nil => rfl
    | cons b bs => simp [lexCompare] at *
  | cons a as ih =>
    intro ys h1 h2
    cases ys with
    | nil => simp [lexCompare] at h1
    | cons b bs =>
      rw [lexCompare_cons_ne_gt] at h1 h2
      rcases h1 with h1 | ⟨he1, hr1⟩ <;> rcases h2 with h2 | ⟨he2, hr2⟩
      · omega
      · omega
      · omega
      · simp [he1, ih bs hr1 hr2]

theorem lexCompare_ne_gt_total (f : α → Nat) :
    ∀ (xs ys : List α), lexCompare f xs ys ≠ .gt ∨ lexCompare f ys xs ≠ .gt := by
  intro xs
  induction xs with
  | nil => exact fun ys => Or.inl (lexCompare_nil_ne_gt f ys)
  | cons a as ih =>
    intro ys
    cases ys with
    | nil => exact Or.inr (lexCompare_nil_ne_gt f _)
    | cons b bs =>
      by_cases hab : f a < f b
      · exact Or.inl ((lexCompare_cons_ne_gt f).2 (Or.inl hab))
      · by_cases hba : f b < f a
        · exact Or.inr ((lexCompare_cons_ne_gt f).2 (Or.inl hba))
        · have he : f a = f b := by omega
          rcases ih bs with h | h
          · exact Or.inl ((lexCompare_cons_ne_gt f).2 (Or.inr ⟨he, h⟩))
          · exact Or.inr ((lexCompare_cons_ne_gt f).2 (Or.inr ⟨he.symm, h⟩))

theorem lexCompare_eq_map (f : α → Nat) :
    ∀ (xs ys : List α), lexCompare f xs ys = lexCompare id (xs.map f) (ys.map f) := by
  intro xs
  induction xs with
  | nil => intro ys; cases ys <;> simp [lexCompare]
  | cons a as ih =>
    intro ys
    cases ys with
    | nil => simp [lexCompare]
    | cons b bs => simp [lexCompare, ih bs]

theorem localeLe_eq_true_iff (a b : String) :
    localeLe a b = true ↔ localeCompare a b ≠ .gt := by
  unfold localeLe
  cases h : localeCompare a b <;> simp [h]

theorem localeCompare_ne_gt_iff (a b : String) :
    localeCompare a b ≠ .gt ↔
      (lexCompare Char.toNat (a.data.map toLowerAscii) (b.data.map toLowerAscii) ≠ .gt
       ∧ (lexCompare Char.toNat (a.data.map toLowerAscii) (b.data.map toLowerAscii) = .eq →
           lexCompare id (a.data.map caseRank) (b.data.map caseRank) ≠ .gt)) := by
  unfold localeCompare
  cases h : lexCompare Char.toNat (a.data.map toLowerAscii) (b.data.map toLowerAscii) <;>
    simp [h]

theorem localeLe_trans {a b c : String}
    (h1 : localeLe a b = true) (h2 : localeLe b c = true) : localeLe a c = true := by
  rw [localeLe_eq_true_iff, localeCompare_ne_gt_iff] at h1 h2 ⊢
  obtain ⟨hp1, ht1⟩ := h1
  obtain ⟨hp2, ht2⟩ := h2
  refine ⟨lexCompare_le_trans _ _ _ _ hp1 hp2, ?_⟩
  intro hpac
  have hmac := (lexCompare_eq_iff Char.toNat _ _).1 hpac
  have hba : lexCompare Char.toNat (b.data.map toLowerAscii) (a.data.map toLowerAscii) ≠ .gt := by
    rw [lexCompare_eq_map] at hp2 ⊢
    rw [← hmac] at hp2
    exact hp2
  have hmab := lexCompare_ne_gt_antisymm Char.toNat _ _ hp1 hba
  have hmbc : (b.data.map toLowerAscii).map Char.toNat = (c.data.map toLowerAscii).map Char.toNat :=
    hmab.symm.trans hmac
  have hT1 := ht1 ((lexCompare_eq_iff Char.toNat _ _).2 hmab)
  have hT2 := ht2 ((lexCompare_eq_iff Char.toNat _ _).2 hmbc)
  exact lexCompare_le_trans id _ _ _ hT1 hT2

theorem localeLe_total (a b : String) :
    localeLe a b = true ∨ localeLe b a = true := by
  rw [localeLe_eq_true_iff, localeLe_eq_true_iff, localeCompare_ne_gt_iff,
    localeCompare_ne_gt_iff]
  rcases lexCompare_ne_gt_total Char.toNat (a.data.map toLowerAscii) (b.data.map toLowerAscii)
    with hp | hp
  · by_cases he : lexCompare Char.toNat (a.data.map toLowerAscii) (b.data.map toLowerAscii) = .eq
    · have hmab := (lexCompare_eq_iff Char.toNat _ _).1 he
      have hba : lexCompare Char.toNat (b.data.map toLowerAscii) (a.data.map toLowerAscii) = .eq :=
        (lexCompare_eq_iff Char.toNat _ _).2 hmab.symm
      rcases lexCompare_ne_gt_total id (a.data.map caseRank) (b.data.map caseRank) with ht | ht
      · exact Or.inl ⟨hp, fun _ => ht⟩
      · exact Or.inr ⟨hba ▸ (by simp), fun _ => ht⟩
    · exact Or.inl ⟨hp, fun h => absurd h he⟩
  · by_cases he : lexCompare Char.toNat (b.data.map toLowerAscii) (a.data.map toLowerAscii) = .eq
    · have hmba := (lexCompare_eq_iff Char.toNat _ _).1 he
      have hab : lexCompare Char.toNat (a.data.map toLowerAscii) (b.data.map toLowerAscii) = .eq :=
        (lexCompare_eq_iff Char.toNat _ _).2 hmba.symm
      rcases lexCompare_ne_gt_total id (a.data.map caseRank) (b.data.map caseRank) with ht | ht
      · exact Or.inl ⟨hab ▸ (by simp), fun _ => ht⟩
      · exact Or.inr ⟨hp, fun _ => ht⟩
    · exact Or.inr ⟨hp, fun h => absurd h he⟩

/-- Matching lowercased characters and matching case ranks force matching
character lists. -/
theorem chars_eq_of_lower_rank :
    ∀ (xs ys : List Char),
      (xs.map toLowerAscii).map Char.toNat = (ys.map toLowerAscii).map Char.toNat →
      xs.map caseRank = ys.map caseRank → xs = ys := by
  intro xs
  induction xs with
  | nil => intro ys h1 _; cases ys <;> simp_all
  | cons x xs ih =>
    intro ys h1 h2
    cases ys with
    | nil => simp_all
    | cons y ys =>
      simp only [List.map_cons, List.cons.injEq] at h1 h2
      have hx : x = y :=
        toLowerAscii_caseRank_inj (char_toNat_injective h1.1) h2.1
      rw [hx, ih ys h1.2 h2.2]

theorem localeLe_antisymm {a b : String}
    (h1 : localeLe a b = true) (h2 : localeLe b a = true) : a = b := by
  rw [localeLe_eq_true_iff, localeCompare_ne_gt_iff] at h1 h2
  have hmab := lexCompare_ne_gt_antisymm Char.toNat _ _ h1.1 h2.1
  have hT1 := h1.2 ((lexCompare_eq_iff Char.toNat _ _).2 hmab)
  have hT2 := h2.2 ((lexCompare_eq_iff Char.toNat _ _).2 hmab.symm)
  have hrank := lexCompare_ne_gt_antisymm id _ _ hT1 hT2
  simp only [List.map_id] at hrank
  exact String.ext (chars_eq_of_lower_rank a.data b.data hmab hrank)

/-! ## The insertion sort used to model Array.prototype.sort -/

theorem insertLe_perm (le : α → α → Bool) (x : α) :
    ∀ (l : List α), (insertLe le x l).Perm (x :: l) := by
  intro l
  induction l with
  | nil => exact List.Perm.refl _
  | cons y ys ih =>
    unfold insertLe
    by_cases h : le x y
    · rw [if_pos h]
    · rw [if_neg h]
      exact (ih.cons y).trans (List.Perm.swap x y ys)

theorem sortLe_perm (le : α → α → Bool) :
    ∀ (l : List α), (sortLe le l).Perm l := by
  intro l
  induction l with
  | nil => exact List.Perm.refl _
  | cons x xs ih => exact (insertLe_perm le x (sortLe le xs)).trans (ih.cons x)

theorem insertLe_pairwise (le : α → α → Bool)
    (htot : ∀ a b, le a b = true ∨ le b a = true)
    (htrans : ∀ a b c, le a b = true → le b c = true → le a c = true)
    (x : α) :
    ∀ (l : List α), l.Pairwise (fun a b => le a b = true) →
      (insertLe le x l).Pairwise (fun a b => le a b = true) := by
  intro l
  induction l with
  | nil => intro _; simp [insertLe]
  | cons y ys ih =>
    intro hl
    obtain ⟨hy, hys⟩ := List.pairwise_cons.1 hl
    unfold insertLe
    by_cases h : le x y
    · rw [if_pos h]
      refine List.pairwise_cons.2 ⟨?_, hl⟩
      intro z hz
      rcases List.mem_cons.1 hz with rfl | hz'
      · exact h
      · exact htrans x y z h (hy z hz')
    · rw [if_neg h]
      have hyx : le y x = true := (htot x y).resolve_left (by simp [h])
      refine List.pairwise_cons.2 ⟨?_, ih hys⟩
      intro z hz
      have hz' := (insertLe_perm le x ys).mem_iff.1 hz
      rcases List.mem_cons.1 hz' with rfl | hz''
      · exact hyx
      · exact hy z hz''

theorem sortLe_pairwise (le : α → α → Bool)
    (htot : ∀ a b, le a b = true ∨ le b a = true)
    (htrans : ∀ a b c, le a b = true → le b c = true → le a c = true) :
    ∀ (l : List α), (sortLe le l).Pairwise (fun a b => le a b = true) := by
  intro l
  induction l with
  | nil => simp [sortLe]
  | cons x xs ih => exact insertLe_pairwise le htot htrans x (sortLe le xs) ih

/-- Two lists of parameters that are permutations of each other, are both
sorted by the locale order on keys, and have no duplicate key, are equal. -/
theorem sorted_perm_eq_of_nodup_keys :
    ∀ (l₁ l₂ : List (String × String)),
      l₁.Perm l₂ →
      l₁.Pairwise (fun p q => localeLe p.1 q.1 = true) →
      l₂.Pairwise (fun p q => localeLe p.1 q.1 = true) →
      (l₁.map Prod.fst).Nodup →
      l₁ = l₂ := by
  intro l₁
  induction l₁ with
  | nil =>
    intro l₂ hp _ _ _
    exact List.Perm.nil_eq hp
  | cons x xs ih =>
    intro l₂ hp h1 h2 hnd
    cases l₂ with
    | nil => exact absurd hp.symm (by simp)
    | cons y ys =>
      have hnd' := hnd
      rw [List.map_cons] at hnd'
      have hnotmem := (List.nodup_cons.1 hnd').1
      have hndtail := (List.nodup_cons.1 hnd').2
      have hxy : x = y := by
        have hx2 : x ∈ y :: ys := hp.subset (List.mem_cons_self x xs)
        rcases List.mem_cons.1 hx2 with h | hxys
        · exact h
        · have hy1 : y ∈ x :: xs := hp.symm.subset (List.mem_cons_self y ys)
          rcases List.mem_cons.1 hy1 with h | hyxs
          · exact h.symm
          · have hle1 : localeLe x.1 y.1 = true := (List.pairwise_cons.1 h1).1 y hyxs
            have hle2 : localeLe y.1 x.1 = true := (List.pairwise_cons.1 h2).1 x hxys
            have hkey : x.1 = y.1 := localeLe_antisymm hle1 hle2
            exact absurd (by rw [hkey]; exact List.mem_map_of_mem Prod.fst hyxs) hnotmem
      subst hxy
      have hp' : xs.Perm ys := hp.cons_inv
      rw [ih ys hp' (List.pairwise_cons.1 h1).2 (List.pairwise_cons.1 h2).2 hndtail]

/-- C6 amended: the canonicalizer drops empty-valued entries, joins
key=percent_encode(value) with ampersands, percent-encodes the key only in
display-URL mode, and is invariant to the input ordering of the map; but the
surviving entries are sorted by the default-locale (localeCompare) order of
their keys rather than by byte value.  Formally: on any permutation of a
duplicate-key-free parameter list, the code's canonicalizer output equals the
locale-order reference canonicalizer of the original list. -/
theorem claim_C6_amended (params₁ params₂ : List (String × String)) (encodeKey : Bool)
    (hperm : params₂.Perm params₁)
    (hnd : (params₁.map Prod.fst).Nodup) :
    getPaymentURL params₂ encodeKey = canonicalizeSpecLC params₁ encodeKey := by
  have htot : ∀ (p q : String × String),
      localeLe p.1 q.1 = true ∨ localeLe q.1 p.1 = true :=
    fun p q => localeLe_total p.1 q.1
  have htrans : ∀ (p q r : String × String),
      localeLe p.1 q.1 = true → localeLe q.1 r.1 = true → localeLe p.1 r.1 = true :=
    fun _ _ _ h1 h2 => localeLe_trans h1 h2
  have hnd₁ : ((params₁.filter (fun p => p.2 != "")).map Prod.fst).Nodup :=
    ((List.filter_sublist params₁).map Prod.fst).nodup hnd
  have key : sortLe (fun a b => localeLe a.1 b.1) (params₂.filter (fun p => p.2 != "")) =
      (params₁.filter (fun p => p.2 != "")).mergeSort (fun a b => localeLe a.1 b.1) := by
    have hpermf : (sortLe (fun a b => localeLe a.1 b.1)
        (params₂.filter (fun p => p.2 != ""))).Perm
        ((params₁.filter (fun p => p.2 != "")).mergeSort (fun a b => localeLe a.1 b.1)) :=
      ((sortLe_perm _ _).trans (hperm.filter _)).trans
        (List.mergeSort_perm (params₁.filter (fun p => p.2 != "")) _).symm
    have hp2 : (sortLe (fun a b => localeLe a.1 b.1)
        (params₂.filter (fun p => p.2 != ""))).Perm (params₁.filter (fun p => p.2 != "")) :=
      (sortLe_perm _ _).trans (hperm.filter _)
    refine sorted_perm_eq_of_nodup_keys _ _ hpermf
      (sortLe_pairwise _ htot htrans _)
      (List.sorted_mergeSort (fun a b c => htrans a b c) ?_ _)
      ((hp2.map Prod.fst).nodup_iff.2 hnd₁)
    intro a b
    rcases htot a b with h | h <;> simp [h]
  unfold getPaymentURL canonicalizeSpecLC
  rw [key]

/-- C6 amended witness: a concrete three-entry map with one empty value, fed
to the code's canonicalizer in a different order than to the reference. -/
theorem claim_C6_amended_witness :
    getPaymentURL [("a", "2"), ("e", ""), ("b", "1")] true =
      canonicalizeSpecLC [("b", "1"), ("a", "2"), ("e", "")] true :=
  claim_C6_amended [("b", "1"), ("a", "2"), ("e", "")]
    [("a", "2"), ("e", ""), ("b", "1")] true (by decide) (by decide)

/-! ## Splitting lemmas for the order-context codec -/

theorem jsSplitGo_nil (c0 : Char) (ct : List Char) (fuel : Nat) :
    jsSplitGo c0 ct fuel [] = [[]] := by
  cases fuel <;> rfl

theorem jsSplitGo_fuel (c0 : Char) (ct : List Char) :
    ∀ (f₁ f₂ : Nat) (s : List Char), s.length ≤ f₁ → s.length ≤ f₂ →
      jsSplitGo c0 ct f₁ s = jsSplitGo c0 ct f₂ s := by
  intro f₁
  induction f₁ with
  | zero =>
    intro f₂ s h1 _
    have hs : s = [] := List.eq_nil_of_length_eq_zero (by omega)
    subst hs
    rw [jsSplitGo_nil, jsSplitGo_nil]
  | succ g ih =>
    intro f₂ s h1 h2
    cases s with
    | nil => rw [jsSplitGo_nil, jsSplitGo_nil]
    | cons c rest =>
      cases f₂ with
      | zero => simp at h2
      | succ h =>
        simp only [jsSplitGo]
        simp only [List.length_cons] at h1 h2
        split
        · congr 1
          exact ih h _ (by simp [List.length_drop]; omega) (by simp [List.length_drop]; omega)
        · rw [ih h rest (by omega) (by omega)]

theorem jsSplitChars_cons (c0 : Char) (ct : List Char) (c : Char) (rest : List Char) :
    jsSplitChars c0 ct (c :: rest) =
      if listStartsWith (c0 :: ct) (c :: rest) then
        [] :: jsSplitChars c0 ct (List.drop ct.length rest)
      else
        match jsSplitChars c0 ct rest with
        | [] => [[c]]
        | seg :: segs => (c :: seg) :: segs := by
  show jsSplitGo c0 ct (List.length (c :: rest)) (c :: rest) = _
  simp only [List.length_cons, jsSplitGo]
  split
  · congr 1
    exact jsSplitGo_fuel c0 ct rest.length _ _ (by simp [List.length_drop]) (le_refl _)
  · rfl

theorem jsSplitChars_ne_nil (c0 : Char) (ct : List Char) :
    ∀ (s : List Char), jsSplitChars c0 ct s ≠ [] := by
  intro s
  cases s with
  | nil => simp [jsSplitChars, jsSplitGo]
  | cons c rest =>
    rw [jsSplitChars_cons]
    split
    · simp
    · cases h : jsSplitChars c0 ct rest <;> simp

theorem modifyHead_modifyHead (f g : List Char → List Char) (l : List (List Char)) :
    List.modifyHead f (List.modifyHead g l) = List.modifyHead (fun x => f (g x)) l := by
  cases l <;> rfl

theorem jsSplitChars_cons_of_ne (c0 : Char) (ct : List Char) (c : Char) (rest : List Char)
    (h : listStartsWith (c0 :: ct) (c :: rest) = false) :
    jsSplitChars c0 ct (c :: rest) =
      List.modifyHead (fun seg => c :: seg) (jsSplitChars c0 ct rest) := by
  rw [jsSplitChars_cons, if_neg (by simp [h])]
  cases hr : jsSplitChars c0 ct rest with
  | nil => exact absurd hr (jsSplitChars_ne_nil c0 ct rest)
  | cons seg segs => simp [List.modifyHead]

theorem jsSplitChars_append_of_no_sep (c0 : Char) (ct : List Char) :
    ∀ (a s : List Char), (∀ x ∈ a, x ≠ c0) →
      jsSplitChars c0 ct (a ++ s) =
        List.modifyHead (fun seg => a ++ seg) (jsSplitChars c0 ct s) := by
  intro a
  induction a with
  | nil =>
    intro s _
    cases hs : jsSplitChars c0 ct s with
    | nil => exact absurd hs (jsSplitChars_ne_nil c0 ct s)
    | cons seg segs => simp [List.modifyHead, hs]
  | cons x a' ih =>
    intro s hx
    have hxc : x ≠ c0 := hx x (List.mem_cons_self x a')
    have hbeq : (c0 == x) = false := beq_eq_false_iff_ne.2 (fun h => hxc h.symm)
    have hsw : listStartsWith (c0 :: ct) (x :: (a' ++ s)) = false := by
      simp [listStartsWith, hbeq]
    rw [List.cons_append, jsSplitChars_cons_of_ne _ _ _ _ hsw,
      ih s (fun y hy => hx y (List.mem_cons_of_mem x hy)), modifyHead_modifyHead]
    rfl

theorem listStartsWith_append (p q : List Char) : listStartsWith p (p ++ q) = true := by
  induction p with
  | nil => rfl
  | cons a as ih => simp [listStartsWith, ih]

theorem jsSplitChars_sep_append (c0 : Char) (ct : List Char) (a b : List Char)
    (ha : ∀ x ∈ a, x ≠ c0) :
    jsSplitChars c0 ct (a ++ (c0 :: ct) ++ b) = a :: jsSplitChars c0 ct b := by
  rw [List.append_assoc, jsSplitChars_append_of_no_sep c0 ct a _ ha]
  have hstep : jsSplitChars c0 ct ((c0 :: ct) ++ b) = [] :: jsSplitChars c0 ct b := by
    rw [show (c0 :: ct) ++ b = c0 :: (ct ++ b) from rfl, jsSplitChars_cons, if_pos]
    · congr 1
      rw [List.drop_left]
    · exact listStartsWith_append (c0 :: ct) b
  rw [hstep]
  simp [List.modifyHead]

theorem jsSplitChars_no_sep (c0 : Char) (ct : List Char) (s : List Char)
    (hs : ∀ x ∈ s, x ≠ c0) :
    jsSplitChars c0 ct s = [s] := by
  have h := jsSplitChars_append_of_no_sep c0 ct s [] hs
  rw [List.append_nil] at h
  rw [h]
  simp [jsSplitChars, jsSplitGo, List.modifyHead]

theorem joinSep_cons_exists (sep : List Char) (y : List Char) (rest : List (List Char)) :
    ∃ t, joinSep sep (y :: rest) = y ++ t := by
  cases rest with
  | nil => exact ⟨[], (List.append_nil y).symm⟩
  | cons z zs => exact ⟨sep ++ joinSep sep (z :: zs), by simp [joinSep]⟩

/-- Splitting on a double hash passes over the single hashes inside a
joined segment list and breaks exactly at the explicit double hash. -/
theorem split2_joinSep_sep_append :
    ∀ (xs : List (List Char)) (b : List Char),
      xs ≠ [] → (∀ x ∈ xs, x ≠ [] ∧ ∀ ch ∈ x, ch ≠ '#') →
      (∀ ch ∈ b, ch ≠ '#') →
      jsSplitChars '#' ['#'] (joinSep ['#'] xs ++ ['#', '#'] ++ b) =
        [joinSep ['#'] xs, b] := by
  intro xs
  induction xs with
  | nil => intro b h _ _; exact absurd rfl h
  | cons x xs ih =>
    intro b _ hx hb
    cases xs with
    | nil =>
      have hxf := (hx x (List.mem_cons_self x [])).2
      show jsSplitChars '#' ['#'] (x ++ ['#', '#'] ++ b) = [x, b]
      rw [jsSplitChars_sep_append '#' ['#'] x b hxf,
        jsSplitChars_no_sep '#' ['#'] b hb]
    | cons y ys =>
      have hxne := (hx x (List.mem_cons_self x (y :: ys))).1
      have hxf := (hx x (List.mem_cons_self x (y :: ys))).2
      have hyne := (hx y (List.mem_cons_of_mem x (List.mem_cons_self y ys))).1
      have hyf := (hx y (List.mem_cons_of_mem x (List.mem_cons_self y ys))).2
      obtain ⟨t, ht⟩ := joinSep_cons_exists ['#'] y ys
      have hJ : joinSep ['#'] (x :: y :: ys) = x ++ ('#' :: joinSep ['#'] (y :: ys)) := by
        simp [joinSep]
      rw [hJ]
      have hfull : (x ++ ('#' :: joinSep ['#'] (y :: ys))) ++ ['#', '#'] ++ b =
          x ++ ('#' :: (joinSep ['#'] (y :: ys) ++ ['#', '#'] ++ b)) := by
        simp
      rw [hfull, jsSplitChars_append_of_no_sep '#' ['#'] x _ hxf]
      cases y with
      | nil => exact absurd rfl hyne
      | cons yh yt =>
        have hyh : yh ≠ '#' := hyf yh (List.mem_cons_self yh yt)
        have hsw : listStartsWith ('#' :: ['#'])
            ('#' :: (joinSep ['#'] ((yh :: yt) :: ys) ++ ['#', '#'] ++ b)) = false := by
          rw [ht]
          have hbeq : (('#' : Char) == yh) = false :=
            beq_eq_false_iff_ne.2 (fun h => hyh h.symm)
          simp [listStartsWith, hbeq]
        rw [jsSplitChars_cons_of_ne _ _ _ _ hsw,
          ih b (by simp) (fun z hz => hx z (List.mem_cons_of_mem x hz)) hb]
        simp [List.modifyHead]

/-- Splitting on a double hash finds no break in a joined segment list with
one trailing hash. -/
theorem split2_joinSep_trailing :
    ∀ (xs : List (List Char)),
      xs ≠ [] → (∀ x ∈ xs, x ≠ [] ∧ ∀ ch ∈ x, ch ≠ '#') →
      jsSplitChars '#' ['#'] (joinSep ['#'] xs ++ ['#']) =
        [joinSep ['#'] xs ++ ['#']] := by
  intro xs
  induction xs with
  | nil => intro h _; exact absurd rfl h
  | cons x xs ih =>
    intro _ hx
    cases xs with
    | nil =>
      have hxf := (hx x (List.mem_cons_self x [])).2
      show jsSplitChars '#' ['#'] (x ++ ['#']) = [x ++ ['#']]
      rw [jsSplitChars_append_of_no_sep '#' ['#'] x ['#'] hxf]
      rfl
    | cons y ys =>
      have hxf := (hx x (List.mem_cons_self x (y :: ys))).2
      have hyne := (hx y (List.mem_cons_of_mem x (List.mem_cons_self y ys))).1
      have hyf := (hx y (List.mem_cons_of_mem x (List.mem_cons_self y ys))).2
      obtain ⟨t, ht⟩ := joinSep_cons_exists ['#'] y ys
      have hJ : joinSep ['#'] (x :: y :: ys) = x ++ ('#' :: joinSep ['#'] (y :: ys)) := by
        simp [joinSep]
      rw [hJ]
      have hfull : (x ++ ('#' :: joinSep ['#'] (y :: ys))) ++ ['#'] =
          x ++ ('#' :: (joinSep ['#'] (y :: ys) ++ ['#'])) := by
        simp
      rw [hfull, jsSplitChars_append_of_no_sep '#' ['#'] x _ hxf]
      cases y with
      | nil => exact absurd rfl hyne
      | cons yh yt =>
        have hyh : yh ≠ '#' := hyf yh (List.mem_cons_self yh yt)
        have hsw : listStartsWith ('#' :: ['#'])
            ('#' :: (joinSep ['#'] ((yh :: yt) :: ys) ++ ['#'])) = false := by
          rw [ht]
          have hbeq : (('#' : Char) == yh) = false :=
            beq_eq_false_iff_ne.2 (fun h => hyh h.symm)
          simp [listStartsWith, hbeq]
        rw [jsSplitChars_cons_of_ne _ _ _ _ hsw,
          ih (by simp) (fun z hz => hx z (List.mem_cons_of_mem x hz))]
        simp [List.modifyHead]

/-- Splitting on a single hash inverts joining with single hashes. -/
theorem split1_joinSep :
    ∀ (xs : List (List Char)),
      xs ≠ [] → (∀ x ∈ xs, ∀ ch ∈ x, ch ≠ '#') →
      jsSplitChars '#' [] (joinSep ['#'] xs) = xs := by
  intro xs
  induction xs with
  | nil => intro h _; exact absurd rfl h
  | cons x xs ih =>
    intro _ hx
    cases xs with
    | nil =>
      exact jsSplitChars_no_sep '#' [] x (hx x (List.mem_cons_self x []))
    | cons y ys =>
      have hxf := hx x (List.mem_cons_self x (y :: ys))
      have hJ : joinSep ['#'] (x :: y :: ys) = x ++ ['#'] ++ joinSep ['#'] (y :: ys) := rfl
      rw [hJ, jsSplitChars_sep_append '#' [] x _ hxf,
        ih (by simp) (fun z hz => hx z (List.mem_cons_of_mem x hz))]

/-- Splitting on a single hash of a joined segment list with one trailing
hash yields the segments plus one final empty token. -/
theorem split1_joinSep_trailing :
    ∀ (xs : List (List Char)),
      xs ≠ [] → (∀ x ∈ xs, ∀ ch ∈ x, ch ≠ '#') →
      jsSplitChars '#' [] (joinSep ['#'] xs ++ ['#']) = xs ++ [[]] := by
  intro xs
  induction xs with
  | nil => intro h _; exact absurd rfl h
  | cons x xs ih =>
    intro _ hx
    cases xs with
    | nil =>
      have hxf := hx x (List.mem_cons_self x [])
      show jsSplitChars '#' [] (x ++ ['#']) = [x, []]
      have hshape : x ++ ['#'] = x ++ ['#'] ++ [] := by simp
      rw [hshape, jsSplitChars_sep_append '#' [] x [] hxf]
      rfl
    | cons y ys =>
      have hxf := hx x (List.mem_cons_self x (y :: ys))
      have hJ : (joinSep ['#'] (x :: y :: ys)) ++ ['#'] =
          x ++ ['#'] ++ (joinSep ['#'] (y :: ys) ++ ['#']) := by
        show (x ++ ['#'] ++ joinSep ['#'] (y :: ys)) ++ ['#'] = _
        simp
      rw [hJ, jsSplitChars_sep_append '#' [] x _ hxf,
        ih (by simp) (fun z hz => hx z (List.mem_cons_of_mem x hz))]
      rfl

/-! ## Decimal rendering and parseInt round-trip lemmas -/

theorem isDigitChar_decDigit (d : Nat) : isDigitChar (decDigit d) = true := by
  match d with
  | 0 => decide
  | 1 => decide
  | 2 => decide
  | 3 => decide
  | 4 => decide
  | 5 => decide
  | 6 => decide
  | 7 => decide
  | 8 => decide
  | n + 9 => exact (by decide : isDigitChar ('9' : Char) = true)

theorem digitVal_decDigit {d : Nat} (h : d < 10) : digitVal (decDigit d) = d := by
  match d, h with
  | 0, _ => decide
  | 1, _ => decide
  | 2, _ => decide
  | 3, _ => decide
  | 4, _ => decide
  | 5, _ => decide
  | 6, _ => decide
  | 7, _ => decide
  | 8, _ => decide
  | 9, _ => decide

theorem natToCharsGo_digits :
    ∀ (fuel n : Nat) (acc : List Char), (∀ c ∈ acc, isDigitChar c = true) →
      ∀ c ∈ natToCharsGo fuel n acc, isDigitChar c = true := by
  intro fuel
  induction fuel with
  | zero => intro n acc hacc; simpa [natToCharsGo] using hacc
  | succ f ih =>
    intro n acc hacc
    simp only [natToCharsGo]
    split
    · exact hacc
    · apply ih
      intro c hc
      rcases List.mem_cons.1 hc with rfl | hc'
      · exact isDigitChar_decDigit _
      · exact hacc c hc'

theorem natToCharsGo_append :
    ∀ (fuel n : Nat) (acc : List Char),
      natToCharsGo fuel n acc = natToCharsGo fuel n [] ++ acc := by
  intro fuel
  induction fuel with
  | zero => intro n acc; rfl
  | succ f ih =>
    intro n acc
    simp only [natToCharsGo]
    split
    · rfl
    · rw [ih (n / 10) (decDigit (n % 10) :: acc), ih (n / 10) [decDigit (n % 10)]]
      simp

theorem natToCharsGo_fuel :
    ∀ (n : Nat), ∀ (f₁ f₂ : Nat) (acc : List Char), n < f₁ → n < f₂ →
      natToCharsGo f₁ n acc = natToCharsGo f₂ n acc := by
  intro n
  induction n using Nat.strong_induction_on with
  | _ n ih =>
    intro f₁ f₂ acc h1 h2
    cases f₁ with
    | zero => omega
    | succ g =>
      cases f₂ with
      | zero => omega
      | succ h =>
        by_cases hn : n = 0
        · simp [natToCharsGo, hn]
        · simp only [natToCharsGo, if_neg hn]
          exact ih (n / 10) (Nat.div_lt_self (by omega) (by omega)) g h _
            (by omega) (by omega)

theorem natToChars_decomp {n : Nat} (hn : n ≠ 0) :
    natToChars n =
      (if n / 10 = 0 then [] else natToChars (n / 10)) ++ [decDigit (n % 10)] := by
  unfold natToChars
  rw [if_neg hn]
  have h1 : natToCharsGo (n + 1) n [] = natToCharsGo n (n / 10) [decDigit (n % 10)] := by
    simp only [natToCharsGo, if_neg hn]
  rw [h1, natToCharsGo_append]
  by_cases h10 : n / 10 = 0
  · rw [if_pos h10, h10]
    cases n with
    | zero => exact absurd rfl hn
    | succ m => simp [natToCharsGo]
  · rw [if_neg h10]
    congr 1
    rw [if_neg h10]
    exact natToCharsGo_fuel (n / 10) n (n / 10 + 1) []
      (Nat.div_lt_self (by omega) (by omega)) (by omega)

theorem natToChars_digits (n : Nat) : ∀ c ∈ natToChars n, isDigitChar c = true := by
  unfold natToChars
  by_cases hn : n = 0
  · rw [if_pos hn]
    intro c hc
    rw [List.mem_singleton.1 hc]
    decide
  · rw [if_neg hn]
    exact natToCharsGo_digits _ _ [] (by simp)

theorem natToChars_ne_nil (n : Nat) : natToChars n ≠ [] := by
  by_cases hn : n = 0
  · simp [natToChars, hn]
  · rw [natToChars_decomp hn]
    simp

theorem natToChars_val :
    ∀ n : Nat, (natToChars n).foldl (fun a c => 10 * a + digitVal c) 0 = n := by
  intro n
  induction n using Nat.strong_induction_on with
  | _ n ih =>
    by_cases hn : n = 0
    · subst hn; decide
    · rw [natToChars_decomp hn, List.foldl_append]
      by_cases h10 : n / 10 = 0
      · rw [if_pos h10]
        simp only [List.foldl_nil, List.foldl_cons]
        rw [digitVal_decDigit (Nat.mod_lt n (by omega))]
        omega
      · rw [if_neg h10]
        rw [ih (n / 10) (Nat.div_lt_self (by omega) (by omega))]
        simp only [List.foldl_cons, List.foldl_nil]
        rw [digitVal_decDigit (Nat.mod_lt n (by omega))]
        omega

theorem intToChars_no_hash (i : Int) : ∀ c ∈ intToChars i, c ≠ '#' := by
  cases i with
  | ofNat n =>
    intro c hc he
    have hd := natToChars_digits n c hc
    subst he
    exact absurd hd (by decide)
  | negSucc m =>
    intro c hc he
    rcases List.mem_cons.1 hc with rfl | hc'
    · exact absurd he (by decide)
    · have hd := natToChars_digits (m + 1) c hc'
      subst he
      exact absurd hd (by decide)

theorem intToChars_ne_nil (i : Int) : intToChars i ≠ [] := by
  cases i with
  | ofNat n => exact natToChars_ne_nil n
  | negSucc m => simp [intToChars]

theorem isDigitChar_not_whitespace {c : Char} (h : isDigitChar c = true) :
    c.isWhitespace = false := by
  unfold isDigitChar at h
  simp only [Bool.and_eq_true, decide_eq_true_eq] at h
  by_contra hw
  simp only [Bool.not_eq_false, Char.isWhitespace] at hw
  simp only [Bool.or_eq_true, decide_eq_true_eq] at hw
  rcases hw with ((rfl | rfl) | rfl) | rfl <;> exact absurd h (by decide)

theorem dropWhile_whitespace_of_digits (s : List Char)
    (hs : ∀ c ∈ s, isDigitChar c = true) :
    s.dropWhile Char.isWhitespace = s := by
  cases s with
  | nil => rfl
  | cons c cs =>
    rw [List.dropWhile_cons,
      if_neg (by simp [isDigitChar_not_whitespace (hs c (List.mem_cons_self c cs))])]

theorem parseNatPre_of_digits (s : List Char) (hne : s ≠ [])
    (hs : ∀ c ∈ s, isDigitChar c = true) :
    parseNatPre s = some (s.foldl (fun a c => 10 * a + digitVal c) 0) := by
  unfold parseNatPre
  rw [List.takeWhile_eq_self_iff.2 hs]
  rw [if_neg (by simpa [List.isEmpty_iff] using hne)]

theorem jsParseIntChars_natToChars (n : Nat) :
    jsParseIntChars (natToChars n) = some ((n : Int)) := by
  unfold jsParseIntChars
  rw [dropWhile_whitespace_of_digits _ (natToChars_digits n)]
  cases hN : natToChars n with
  | nil => exact absurd hN (natToChars_ne_nil n)
  | cons c cs =>
    have hcd : isDigitChar c = true :=
      natToChars_digits n c (hN ▸ List.mem_cons_self c cs)
    have hval : (c :: cs).foldl (fun a ch => 10 * a + digitVal ch) 0 = n := by
      rw [← hN]; exact natToChars_val n
    have hall : ∀ ch ∈ c :: cs, isDigitChar ch = true := by
      rw [← hN]; exact natToChars_digits n
    split
    · rename_i rest heq
      rw [List.cons.injEq] at heq
      exact absurd hcd (by rw [heq.1]; decide)
    · rename_i rest heq
      rw [List.cons.injEq] at heq
      exact absurd hcd (by rw [heq.1]; decide)
    · rw [parseNatPre_of_digits _ (by simp) hall, hval]
      rfl

theorem jsParseIntChars_neg (m : Nat) :
    jsParseIntChars ('-' :: natToChars (m + 1)) = some (Int.negSucc m) := by
  unfold jsParseIntChars
  rw [List.dropWhile_cons, if_neg (by decide)]
  split
  · rename_i rest heq
    rw [List.cons.injEq] at heq
    rw [← heq.2, parseNatPre_of_digits _ (natToChars_ne_nil (m + 1)) (natToChars_digits (m + 1)),
      natToChars_val (m + 1)]
    simp [Int.negSucc_eq]
  · rename_i rest heq
    rw [List.cons.injEq] at heq
    exact absurd heq.1 (by decide)
  · rename_i hne1 hne2
    exact absurd rfl (hne1 (natToChars (m + 1)))

theorem jsParseInt_intToString (i : Int) : jsParseInt (intToString i) = some i := by
  cases i with
  | ofNat n =>
    show jsParseIntChars (natToChars n) = some (Int.ofNat n)
    rw [jsParseIntChars_natToChars n]
    rfl
  | negSucc m =>
    show jsParseIntChars ('-' :: natToChars (m + 1)) = some (Int.negSucc m)
    exact jsParseIntChars_neg m

/-! ## Decomposition of the encoded order-info token -/

theorem foldl_courses_data (cs : List Int) :
    ∀ (s : String),
      (List.foldl (fun acc c => acc ++ intToString c ++ "#") s cs).data =
        s.data ++ coursesData cs := by
  induction cs with
  | nil => intro s; simp [coursesData]
  | cons c cs ih =>
    intro s
    simp only [List.foldl_cons]
    rw [ih]
    simp [String.data_append, coursesData, intToString]

theorem coursesData_eq_joinSep :
    ∀ (cs : List Int), cs ≠ [] →
      coursesData cs = joinSep ['#'] (cs.map intToChars) ++ ['#'] := by
  intro cs
  induction cs with
  | nil => intro h; exact absurd rfl h
  | cons c cs ih =>
    intro _
    cases cs with
    | nil => simp [coursesData, joinSep]
    | cons c2 cs2 =>
      rw [show coursesData (c :: c2 :: cs2) =
        intToChars c ++ '#' :: coursesData (c2 :: cs2) from rfl]
      rw [ih (by simp)]
      simp [joinSep]

theorem encodeOrderInfo_data_none (u : Int) (cs : List Int) (hcs : cs ≠ []) :
    (encodeOrderInfo u cs none).data =
      intToChars u ++ ('#' :: ['#']) ++
        (joinSep ['#'] (cs.map intToChars) ++ ['#']) := by
  show (List.foldl (fun acc c => acc ++ intToString c ++ "#") (intToString u ++ "##") cs).data = _
  rw [foldl_courses_data, String.data_append, coursesData_eq_joinSep cs hcs]
  simp [intToString]

theorem encodeOrderInfo_data_some (u : Int) (cs : List Int) (d : Int) (hcs : cs ≠ []) :
    (encodeOrderInfo u cs (some d)).data =
      intToChars u ++ ('#' :: ['#']) ++
        (joinSep ['#'] (cs.map intToChars) ++ ('#' :: ['#']) ++ intToChars d) := by
  show ((List.foldl (fun acc c => acc ++ intToString c ++ "#") (intToString u ++ "##") cs)
      ++ "#" ++ intToString d).data = _
  rw [String.data_append, String.data_append, foldl_courses_data, String.data_append,
    coursesData_eq_joinSep cs hcs]
  simp [intToString]

theorem map_intToChars_ne_nil_no_hash (cs : List Int) :
    ∀ x ∈ cs.map intToChars, x ≠ [] ∧ ∀ ch ∈ x, ch ≠ '#' := by
  intro x hx
  obtain ⟨c, _, rfl⟩ := List.mem_map.1 hx
  exact ⟨intToChars_ne_nil c, intToChars_no_hash c⟩

theorem string_mk_ne_empty {x : List Char} (h : x ≠ []) : (String.mk x != "") = true := by
  refine bne_iff_ne.2 (fun he => ?_)
  exact h (congrArg String.data he)

theorem filter_map_mk_all (xs : List (List Char)) (hxs : ∀ x ∈ xs, x ≠ []) :
    ((xs.map String.mk).filter (fun t => t != "")) = xs.map String.mk := by
  induction xs with
  | nil => rfl
  | cons x xs ih =>
    simp only [List.map_cons, List.filter_cons]
    rw [if_pos (string_mk_ne_empty (hxs x (List.mem_cons_self x xs)))]
    rw [ih (fun y hy => hxs y (List.mem_cons_of_mem x hy))]

theorem filter_map_mk_trailing (xs : List (List Char)) (hxs : ∀ x ∈ xs, x ≠ []) :
    (((xs ++ [[]]).map String.mk).filter (fun t => t != "")) = xs.map String.mk := by
  rw [List.map_append, List.filter_append, filter_map_mk_all xs hxs]
  simp

theorem map_jsParseInt_courses (cs : List Int) :
    ((cs.map intToChars).map String.mk).map jsParseInt = cs.map some := by
  rw [List.map_map, List.map_map]
  apply List.map_congr_left
  intro c _
  exact jsParseInt_intToString c

/-- C7 amended: for every studentId, every non-empty list of course ids and
every optional discountId, decoding the encoded order-info token reproduces
(studentId, courseIds, discountId) exactly — course order preserved,
discount absent exactly when none was encoded — and the Scenario E token
with a trailing empty discount segment decodes to courses [10, 20] with the
discount absent, not 0.  (For the empty course list the encoding is not
invertible, as the counterexample shows.) -/
theorem claim_C7_amended (u : Int) (cs : List Int) (d : Option Int) (hcs : cs ≠ []) :
    decodeOrderInfo (encodeOrderInfo u cs d) =
      some ⟨some u, cs.map some, d.map some⟩
    ∧ decodeOrderInfo "123##10#20##" =
      some ⟨some 123, [some 10, some 20], none⟩ := by
  refine ⟨?_, rfl⟩
  have hxs := map_intToChars_ne_nil_no_hash cs
  have hxs1 : ∀ x ∈ cs.map intToChars, x ≠ [] := fun x hx => (hxs x hx).1
  have hxs2 : ∀ x ∈ cs.map intToChars, ∀ ch ∈ x, ch ≠ '#' := fun x hx => (hxs x hx).2
  have hmapne : cs.map intToChars ≠ [] := by
    cases cs with
    | nil => exact absurd rfl hcs
    | cons a l => simp
  cases d with
  | none =>
    unfold decodeOrderInfo jsSplit
    rw [encodeOrderInfo_data_none u cs hcs,
      jsSplitChars_sep_append '#' ['#'] _ _ (intToChars_no_hash u),
      split2_joinSep_trailing _ hmapne hxs]
    simp only [List.map_cons, List.map_nil]
    rw [split1_joinSep_trailing _ hmapne hxs2, filter_map_mk_trailing _ hxs1,
      map_jsParseInt_courses,
      show jsParseInt ⟨intToChars u⟩ = some u from jsParseInt_intToString u]
    rfl
  | some dv =>
    unfold decodeOrderInfo jsSplit
    rw [encodeOrderInfo_data_some u cs dv hcs,
      jsSplitChars_sep_append '#' ['#'] _ _ (intToChars_no_hash u),
      split2_joinSep_sep_append _ _ hmapne hxs (intToChars_no_hash dv)]
    simp only [List.map_cons, List.map_nil]
    rw [split1_joinSep _ hmapne hxs2, filter_map_mk_all _ hxs1,
      map_jsParseInt_courses,
      show jsParseInt ⟨intToChars u⟩ = some u from jsParseInt_intToString u,
      if_pos (string_mk_ne_empty (intToChars_ne_nil dv)),
      show jsParseInt ⟨intToChars dv⟩ = some dv from jsParseInt_intToString dv]
    rfl

/-- C7 amended witness: the Scenario A token round-trips. -/
theorem claim_C7_amended_witness :
    decodeOrderInfo (encodeOrderInfo 123 [10, 20] (some 789)) =
      some ⟨some 123, [some 10, some 20], some (some 789)⟩ :=
  (claim_C7_amended 123 [10, 20] (some 789) (by decide)).1

/-! ## Invariants of the per-cart-item commit loop -/

theorem enrolledB_congr {db₁ db₂ : DBState} (h : db₁.enrollments = db₂.enrollments)
    (sid c : Int) : enrolledB db₁ sid c = enrolledB db₂ sid c := by
  unfold enrolledB
  rw [h]

theorem findCoursePrice_congr {db₁ db₂ : DBState} (h : db₁.courses = db₂.courses)
    (c : Int) : findCoursePrice db₁ c = findCoursePrice db₂ c := by
  unfold findCoursePrice
  rw [h]

theorem enrolledB_append_left {db : DBState} {rows : List EnrollmentRow} {sid c : Int}
    (h : enrolledB db sid c = true) (db₂ : DBState)
    (h₂ : db₂.enrollments = db.enrollments ++ rows) :
    enrolledB db₂ sid c = true := by
  unfold enrolledB at h ⊢
  rw [h₂, List.any_append, h]
  rfl

/-- Full characterization of one pass of the commit loop: the recorded
deletion list extends the accumulator by some `newCourses`; the enrollments
grow by exactly one fresh row per recorded course; every other table is
untouched; and every recorded course was in the purchase list, not yet
enrolled at loop entry, and present in the catalog. -/
theorem processCartItems_spec (sid oid : Int) (cids : List (Option Int)) :
    ∀ (items : List CartItemRow) (db : DBState) (acc : List Int),
      ∃ newCourses : List Int,
        (processCartItems sid oid cids items db acc).2 = acc ++ newCourses ∧
        (processCartItems sid oid cids items db acc).1.enrollments =
          db.enrollments ++ newCourses.map (fun c => ⟨sid, c, false, 1⟩) ∧
        (processCartItems sid oid cids items db acc).1.carts = db.carts ∧
        (processCartItems sid oid cids items db acc).1.cartItems = db.cartItems ∧
        (processCartItems sid oid cids items db acc).1.courses = db.courses ∧
        (processCartItems sid oid cids items db acc).1.studentDiscounts =
          db.studentDiscounts ∧
        (processCartItems sid oid cids items db acc).1.orders = db.orders ∧
        (processCartItems sid oid cids items db acc).1.nextOrderId = db.nextOrderId ∧
        (∀ c ∈ newCourses, cids.contains (some c) = true ∧
          enrolledB db sid c = false ∧ (findCoursePrice db c).isSome = true) := by
  intro items
  induction items with
  | nil =>
    intro db acc
    exact ⟨[], by simp [processCartItems]⟩
  | cons ci rest ih =>
    intro db acc
    by_cases hc : cids.contains (some ci.courseId) = true
    · have hc2 : some ci.courseId ∈ cids := by simpa using hc
      by_cases he : enrolledB db sid ci.courseId = true
      · simpa [processCartItems, hc, hc2, he] using ih db acc
      · cases hf : findCoursePrice db ci.courseId with
        | none =>
          simpa [processCartItems, hc, hc2, he, hf] using ih db acc
        | some price =>
          have hstep : processCartItems sid oid cids (ci :: rest) db acc =
              processCartItems sid oid cids rest
                { db with
                    orderItems := db.orderItems ++ [⟨oid, ci.courseId, price⟩]
                    enrollments := db.enrollments ++ [⟨sid, ci.courseId, false, 1⟩] }
                (acc ++ [ci.courseId]) := by
            simp [processCartItems, hc, hc2, he, hf]
          obtain ⟨new, h2, hE, hC, hI, hK, hS, hO, hN, hcond⟩ :=
            ih { db with
                   orderItems := db.orderItems ++ [⟨oid, ci.courseId, price⟩]
                   enrollments := db.enrollments ++ [⟨sid, ci.courseId, false, 1⟩] }
              (acc ++ [ci.courseId])
          refine ⟨ci.courseId :: new, ?_, ?_, ?_, ?_, ?_, ?_, ?_, ?_, ?_⟩
          · rw [hstep, h2]; simp
          · rw [hstep, hE]; simp
          · rw [hstep, hC]
          · rw [hstep, hI]
          · rw [hstep, hK]
          · rw [hstep, hS]
          · rw [hstep, hO]
          · rw [hstep, hN]
          · intro c hcmem
            rcases List.mem_cons.1 hcmem with rfl | hcnew
            · exact ⟨hc, by simpa using he, by simp [hf]⟩
            · obtain ⟨hc1, hc2, hc3⟩ := hcond c hcnew
              refine ⟨hc1, ?_, ?_⟩
              · unfold enrolledB at hc2 ⊢
                simp only [List.any_append] at hc2
                exact (Bool.or_eq_false_iff.1 hc2).1
              · exact hc3
    · have hc2 : some ci.courseId ∉ cids := by simpa using hc
      simpa [processCartItems, hc, hc2] using ih db acc

/-- After one pass of the commit loop, every cart item in the purchase list
is settled: either the student ends the pass enrolled in its course, or the
course is absent from the catalog. -/
theorem processCartItems_all_settled (sid oid : Int) (cids : List (Option Int)) :
    ∀ (items : List CartItemRow) (db : DBState) (acc : List Int),
      ∀ ci ∈ items, cids.contains (some ci.courseId) = true →
        enrolledB (processCartItems sid oid cids items db acc).1 sid ci.courseId = true ∨
        findCoursePrice db ci.courseId = none := by
  intro items
  induction items with
  | nil => intro db acc ci hci; exact absurd hci (List.not_mem_nil ci)
  | cons ci0 rest ih =>
    intro db acc ci hci hpc
    have hpc2 : some ci.courseId ∈ cids := by simpa using hpc
    rcases List.mem_cons.1 hci with rfl | hcirest
    · by_cases he : enrolledB db sid ci.courseId = true
      · left
        obtain ⟨new, _, hE, _⟩ :=
          processCartItems_spec sid oid cids (ci :: rest) db acc
        exact enrolledB_append_left he _ hE
      · cases hf : findCoursePrice db ci.courseId with
        | none => exact Or.inr rfl
        | some price =>
          left
          have hstep : processCartItems sid oid cids (ci :: rest) db acc =
              processCartItems sid oid cids rest
                { db with
                    orderItems := db.orderItems ++ [⟨oid, ci.courseId, price⟩]
                    enrollments := db.enrollments ++ [⟨sid, ci.courseId, false, 1⟩] }
                (acc ++ [ci.courseId]) := by
            simp [processCartItems, hpc, hpc2, he, hf]
          rw [hstep]
          obtain ⟨new, _, hE, _⟩ :=
            processCartItems_spec sid oid cids rest
              { db with
                  orderItems := db.orderItems ++ [⟨oid, ci.courseId, price⟩]
                  enrollments := db.enrollments ++ [⟨sid, ci.courseId, false, 1⟩] }
              (acc ++ [ci.courseId])
          refine enrolledB_append_left ?_ _ hE
          unfold enrolledB
          simp
    · by_cases hpc0 : cids.contains (some ci0.courseId) = true
      · have hpc02 : some ci0.courseId ∈ cids := by simpa using hpc0
        by_cases he : enrolledB db sid ci0.courseId = true
        · have hstep : processCartItems sid oid cids (ci0 :: rest) db acc =
              processCartItems sid oid cids rest db acc := by
            simp [processCartItems, hpc0, hpc02, he]
          rw [hstep]
          exact ih db acc ci hcirest hpc
        · cases hf : findCoursePrice db ci0.courseId with
          | none =>
            have hstep : processCartItems sid oid cids (ci0 :: rest) db acc =
                processCartItems sid oid cids rest db acc := by
              simp [processCartItems, hpc0, hpc02, he, hf]
            rw [hstep]
            exact ih db acc ci hcirest hpc
          | some price =>
            have hstep : processCartItems sid oid cids (ci0 :: rest) db acc =
                processCartItems sid oid cids rest
                  { db with
                      orderItems := db.orderItems ++ [⟨oid, ci0.courseId, price⟩]
                      enrollments := db.enrollments ++ [⟨sid, ci0.courseId, false, 1⟩] }
                  (acc ++ [ci0.courseId]) := by
              simp [processCartItems, hpc0, hpc02, he, hf]
            rw [hstep]
            rcases ih { db with
                orderItems := db.orderItems ++ [⟨oid, ci0.courseId, price⟩]
                enrollments := db.enrollments ++ [⟨sid, ci0.courseId, false, 1⟩] }
              (acc ++ [ci0.courseId]) ci hcirest hpc with h | h
            · exact Or.inl h
            · exact Or.inr h
      · have hpc02 : some ci0.courseId ∉ cids := by simpa using hpc0
        have hstep : processCartItems sid oid cids (ci0 :: rest) db acc =
            processCartItems sid oid cids rest db acc := by
          simp [processCartItems, hpc0, hpc02]
        rw [hstep]
        exact ih db acc ci hcirest hpc

/-- When every purchased cart item is already enrolled or missing from the
catalog, the commit loop is a complete no-op. -/
theorem processCartItems_noop (sid oid : Int) (cids : List (Option Int)) :
    ∀ (items : List CartItemRow) (db : DBState) (acc : List Int),
      (∀ ci ∈ items, cids.contains (some ci.courseId) = true →
        enrolledB db sid ci.courseId = true ∨ findCoursePrice db ci.courseId = none) →
      processCartItems sid oid cids items db acc = (db, acc) := by
  intro items
  induction items with
  | nil => intro db acc _; rfl
  | cons ci rest ih =>
    intro db acc hall
    have htail : ∀ ci2 ∈ rest, cids.contains (some ci2.courseId) = true →
        enrolledB db sid ci2.courseId = true ∨ findCoursePrice db ci2.courseId = none :=
      fun ci2 h2 => hall ci2 (List.mem_cons_of_mem ci h2)
    by_cases hc : cids.contains (some ci.courseId) = true
    · have hc2 : some ci.courseId ∈ cids := by simpa using hc
      by_cases he : enrolledB db sid ci.courseId = true
      · have hstep : processCartItems sid oid cids (ci :: rest) db acc =
            processCartItems sid oid cids rest db acc := by
          simp [processCartItems, hc, hc2, he]
        rw [hstep]
        exact ih db acc htail
      · rcases hall ci (List.mem_cons_self ci rest) hc with he2 | hf
        · exact absurd he2 he
        · have hstep : processCartItems sid oid cids (ci :: rest) db acc =
              processCartItems sid oid cids rest db acc := by
            simp [processCartItems, hc, hc2, he, hf]
          rw [hstep]
          exact ih db acc htail
    · have hc2 : some ci.courseId ∉ cids := by simpa using hc
      have hstep : processCartItems sid oid cids (ci :: rest) db acc =
          processCartItems sid oid cids rest db acc := by
        simp [processCartItems, hc, hc2]
      rw [hstep]
      exact ih db acc htail

/-- Shape of the transaction body once a cart has been resolved. -/
theorem copyCartToOrderTx_cons (studentId : Int) (courseIds : List (Option Int))
    (totalPrice : Option Rat) (db : DBState) (cart : CartRow) (cartRest : List CartRow)
    (hcart : db.carts.filter (fun c => c.studentId == studentId) = cart :: cartRest) :
    copyCartToOrderTx studentId courseIds totalPrice db =
      (if (db.cartItems.filter (fun ci => ci.cartId == cart.cartId)).isEmpty then
        Except.error "No items in the cart"
      else
        let r := processCartItems studentId db.nextOrderId courseIds
          (db.cartItems.filter (fun ci => ci.cartId == cart.cartId))
          { db with
              orders := db.orders ++ [⟨db.nextOrderId, studentId, totalPrice⟩]
              nextOrderId := db.nextOrderId + 1 } []
        Except.ok (if r.2.isEmpty then r.1
          else { r.1 with
                   cartItems := r.1.cartItems.filter
                     (fun ci => !(ci.cartId == cart.cartId && r.2.contains ci.courseId)) })) := by
  unfold copyCartToOrderTx
  rw [hcart]

/-- Full characterization of a successful commit: the resolved cart, the
newly enrolled courses (fresh rows appended to enrollments), the cart-item
deletion being exactly the items of this cart whose course was newly
enrolled, the untouched tables, the preconditions of every new enrollment,
and the settledness of every purchased item of the cart afterwards. -/
theorem copyCartToOrder_spec (studentId : Int) (courseIds : List (Option Int))
    (totalPrice : Option Rat) (db db1 : DBState)
    (h : copyCartToOrder studentId courseIds totalPrice db = (db1, .ok ())) :
    ∃ (cart : CartRow) (cartRest : List CartRow) (newCourses : List Int),
      db.carts.filter (fun c => c.studentId == studentId) = cart :: cartRest ∧
      db1.enrollments = db.enrollments ++
        newCourses.map (fun c => ⟨studentId, c, false, 1⟩) ∧
      db1.cartItems = db.cartItems.filter
        (fun ci => !(ci.cartId == cart.cartId && newCourses.contains ci.courseId)) ∧
      db1.carts = db.carts ∧
      db1.courses = db.courses ∧
      db1.studentDiscounts = db.studentDiscounts ∧
      (∀ c ∈ newCourses, courseIds.contains (some c) = true ∧
        enrolledB db studentId c = false ∧ (findCoursePrice db c).isSome = true) ∧
      (∀ ci ∈ db.cartItems, ci.cartId = cart.cartId →
        courseIds.contains (some ci.courseId) = true →
        enrolledB db1 studentId ci.courseId = true ∨
        findCoursePrice db ci.courseId = none) := by
  unfold copyCartToOrder at h
  cases htx : copyCartToOrderTx studentId courseIds totalPrice db with
  | error e => rw [htx] at h; simp at h
  | ok db3 =>
    rw [htx] at h
    have hdb : db3 = db1 := by
      have := congrArg Prod.fst h
      simpa using this
    subst hdb
    cases hcart : db.carts.filter (fun c => c.studentId == studentId) with
    | nil =>
      unfold copyCartToOrderTx at htx
      rw [hcart] at htx
      exact absurd htx (by simp)
    | cons cart cartRest =>
      rw [copyCartToOrderTx_cons studentId courseIds totalPrice db cart cartRest hcart] at htx
      by_cases hempty : (db.cartItems.filter (fun ci => ci.cartId == cart.cartId)).isEmpty = true
      · rw [if_pos hempty] at htx
        exact absurd htx (by simp)
      · rw [if_neg hempty] at htx
        simp only [Except.ok.injEq] at htx
        obtain ⟨new, h2, hE, hC, hI, hK, hS, hO, hN, hcond⟩ :=
          processCartItems_spec studentId db.nextOrderId courseIds
            (db.cartItems.filter (fun ci => ci.cartId == cart.cartId))
            { db with
                orders := db.orders ++ [⟨db.nextOrderId, studentId, totalPrice⟩]
                nextOrderId := db.nextOrderId + 1 } []
        rw [List.nil_append] at h2
        refine ⟨cart, cartRest, new, rfl, ?_, ?_, ?_, ?_, ?_, ?_, ?_⟩
        · rw [← htx]
          split
          · rename_i hre
            have hnew : new = [] := by rwa [h2, List.isEmpty_iff] at hre
            rw [hnew] at hE
            rw [hnew]
            simpa using hE
          · simpa using hE
        · rw [← htx]
          split
          · rename_i hre
            have hnew : new = [] := by rwa [h2, List.isEmpty_iff] at hre
            rw [hnew]
            rw [show (processCartItems studentId db.nextOrderId courseIds
                (db.cartItems.filter (fun ci => ci.cartId == cart.cartId))
                { db with
                    orders := db.orders ++ [⟨db.nextOrderId, studentId, totalPrice⟩]
                    nextOrderId := db.nextOrderId + 1 } []).1.cartItems =
              db.cartItems from hI]
            exact (List.filter_eq_self.2 (fun a _ => by simp)).symm
          · show (processCartItems _ _ _ _ _ _).1.cartItems.filter _ = _
            rw [show (processCartItems studentId db.nextOrderId courseIds
                (db.cartItems.filter (fun ci => ci.cartId == cart.cartId))
                { db with
                    orders := db.orders ++ [⟨db.nextOrderId, studentId, totalPrice⟩]
                    nextOrderId := db.nextOrderId + 1 } []).1.cartItems =
              db.cartItems from hI, h2]
        · rw [← htx]
          split
          · exact hC
          · exact hC
        · rw [← htx]
          split
          · exact hK
          · exact hK
        · rw [← htx]
          split
          · exact hS
          · exact hS
        · intro c hcnew
          obtain ⟨hc1, hc2, hc3⟩ := hcond c hcnew
          exact ⟨hc1, hc2, hc3⟩
        · intro ci hci hcart2 hcont
          have hmem : ci ∈ db.cartItems.filter (fun x => x.cartId == cart.cartId) := by
            rw [List.mem_filter]
            exact ⟨hci, by simp [hcart2]⟩
          rcases processCartItems_all_settled studentId db.nextOrderId courseIds
              (db.cartItems.filter (fun x => x.cartId == cart.cartId))
              { db with
                  orders := db.orders ++ [⟨db.nextOrderId, studentId, totalPrice⟩]
                  nextOrderId := db.nextOrderId + 1 } [] ci hmem hcont with hs | hs
          · left
            rw [← htx]
            split
            · exact hs
            · unfold enrolledB at hs ⊢
              exact hs
          · exact Or.inr hs

/-- C10: the cart frame condition at commit.  On a successful commit, the
cart items removed are exactly the items of the resolved cart whose course
was newly enrolled in this transaction (a fresh Enrollment row appended for
a course that was in the purchase list, not yet enrolled, and present in
the catalog); every cart item whose course is not in the purchase list, is
already enrolled, or is missing from the catalog remains in the cart. -/
theorem claim_C10_cart_item_frame (studentId : Int) (courseIds : List (Option Int))
    (totalPrice : Option Rat) (db db1 : DBState)
    (h : copyCartToOrder studentId courseIds totalPrice db = (db1, .ok ())) :
    ∃ (cart : CartRow) (cartRest : List CartRow) (newCourses : List Int),
      db.carts.filter (fun c => c.studentId == studentId) = cart :: cartRest
      ∧ db1.enrollments = db.enrollments ++
          newCourses.map (fun c => ⟨studentId, c, false, 1⟩)
      ∧ (∀ c ∈ newCourses, courseIds.contains (some c) = true
          ∧ enrolledB db studentId c = false
          ∧ (findCoursePrice db c).isSome = true)
      ∧ db1.cartItems = db.cartItems.filter
          (fun ci => !(ci.cartId == cart.cartId && newCourses.contains ci.courseId))
      ∧ (∀ ci ∈ db.cartItems,
          (courseIds.contains (some ci.courseId) = false
            ∨ enrolledB db studentId ci.courseId = true
            ∨ findCoursePrice db ci.courseId = none) →
          ci ∈ db1.cartItems) := by
  obtain ⟨cart, cartRest, new, hcart, hE, hCI, hC, hK, hS, hcond, hsettled⟩ :=
    copyCartToOrder_spec studentId courseIds totalPrice db db1 h
  refine ⟨cart, cartRest, new, hcart, hE, hcond, hCI, ?_⟩
  intro ci hci hclause
  have hnc : ci.courseId ∉ new := by
    intro hmem
    obtain ⟨h1, h2, h3⟩ := hcond ci.courseId hmem
    rcases hclause with hA | hA | hA
    · rw [h1] at hA; exact absurd hA (by simp)
    · rw [hA] at h2; exact absurd h2 (by simp)
    · rw [hA] at h3; exact absurd h3 (by simp)
  rw [hCI, List.mem_filter]
  refine ⟨hci, ?_⟩
  have hcf : new.contains ci.courseId = false := by simpa using hnc
  simp [hcf]
  exact Or.inr hnc

/-- C10 witness: the Scenario A commit instantiates the frame condition. -/
theorem claim_C10_witness :
    ∃ (cart : CartRow) (cartRest : List CartRow) (newCourses : List Int),
      scenarioDB.carts.filter (fun c => c.studentId == (123 : Int)) = cart :: cartRest
      ∧ ({ scenarioDB with
             cartItems := []
             orders := [⟨1, 123, some 245⟩]
             orderItems := [⟨1, 10, 100⟩, ⟨1, 20, 150⟩]
             enrollments := [⟨123, 10, false, 1⟩, ⟨123, 20, false, 1⟩]
             nextOrderId := 2 } : DBState).enrollments = scenarioDB.enrollments ++
          newCourses.map (fun c => ⟨123, c, false, 1⟩)
      ∧ (∀ c ∈ newCourses, ([some 10, some 20] : List (Option Int)).contains (some c) = true
          ∧ enrolledB scenarioDB 123 c = false
          ∧ (findCoursePrice scenarioDB c).isSome = true)
      ∧ ({ scenarioDB with
             cartItems := []
             orders := [⟨1, 123, some 245⟩]
             orderItems := [⟨1, 10, 100⟩, ⟨1, 20, 150⟩]
             enrollments := [⟨123, 10, false, 1⟩, ⟨123, 20, false, 1⟩]
             nextOrderId := 2 } : DBState).cartItems = scenarioDB.cartItems.filter
          (fun ci => !(ci.cartId == cart.cartId && newCourses.contains ci.courseId))
      ∧ (∀ ci ∈ scenarioDB.cartItems,
          (([some 10, some 20] : List (Option Int)).contains (some ci.courseId) = false
            ∨ enrolledB scenarioDB 123 ci.courseId = true
            ∨ findCoursePrice scenarioDB ci.courseId = none) →
          ci ∈ ({ scenarioDB with
                    cartItems := []
                    orders := [⟨1, 123, some 245⟩]
                    orderItems := [⟨1, 10, 100⟩, ⟨1, 20, 150⟩]
                    enrollments := [⟨123, 10, false, 1⟩, ⟨123, 20, false, 1⟩]
                    nextOrderId := 2 } : DBState).cartItems) :=
  claim_C10_cart_item_frame 123 [some 10, some 20] (some 245) scenarioDB _ rfl

/-- Replaying a committed purchase cannot create enrollments: after a
successful commit on `db` (and any further processing that preserves carts,
cart items, courses and enrollments, such as the discount cleanup), running
the same commit again leaves the enrollments table exactly as it was —
whether the rerun commits (as a pure no-op on enrollments) or aborts. -/
theorem copyCartToOrder_redelivery_noop
    (studentId : Int) (courseIds : List (Option Int)) (tp1 tp2 : Option Rat)
    (db dbc db1 : DBState)
    (h : copyCartToOrder studentId courseIds tp1 db = (dbc, .ok ()))
    (hE : db1.enrollments = dbc.enrollments)
    (hC : db1.carts = db.carts)
    (hI : db1.cartItems = dbc.cartItems)
    (hK : db1.courses = db.courses) :
    (copyCartToOrder studentId courseIds tp2 db1).1.enrollments = db1.enrollments := by
  obtain ⟨cart, cartRest, new, hcart, hE0, hCI0, hC0, hK0, hS0, hcond, hsettled⟩ :=
    copyCartToOrder_spec studentId courseIds tp1 db dbc h
  have hcart1 : db1.carts.filter (fun c => c.studentId == studentId) = cart :: cartRest := by
    rw [hC, hcart]
  unfold copyCartToOrder
  rw [copyCartToOrderTx_cons studentId courseIds tp2 db1 cart cartRest hcart1]
  by_cases hempty : (db1.cartItems.filter (fun ci => ci.cartId == cart.cartId)).isEmpty = true
  · rw [if_pos hempty]
  · rw [if_neg hempty]
    have hnoop : processCartItems studentId db1.nextOrderId courseIds
        (db1.cartItems.filter (fun ci => ci.cartId == cart.cartId))
        { db1 with
            orders := db1.orders ++ [⟨db1.nextOrderId, studentId, tp2⟩]
            nextOrderId := db1.nextOrderId + 1 } [] =
        ({ db1 with
             orders := db1.orders ++ [⟨db1.nextOrderId, studentId, tp2⟩]
             nextOrderId := db1.nextOrderId + 1 }, []) := by
      apply processCartItems_noop
      intro ci hci hcont
      have hmem := List.mem_filter.1 hci
      have hci0 : ci ∈ db.cartItems := by
        have hmem1 := hmem.1
        rw [hI, hCI0] at hmem1
        exact (List.mem_filter.1 hmem1).1
      have hcartid : ci.cartId = cart.cartId := by simpa using hmem.2
      rcases hsettled ci hci0 hcartid hcont with hs | hs
      · left
        unfold enrolledB at hs ⊢
        show db1.enrollments.any _ = true
        rw [hE]
        exact hs
      · right
        show findCoursePrice db1 ci.courseId = none
        rw [findCoursePrice_congr hK]
        exact hs
    rw [hnoop]
    rfl

/-- C2 amended: delivering the identical, validly signed callback a second
time after a successful first delivery never changes enrollment state — the
enrollments table after the second delivery is exactly the one after the
first, so no duplicate Enrollment row is ever created and already-enrolled
cart items are skipped without re-insert.  (The second delivery is not
always error-free: when the first commit emptied the cart it throws
'No items in the cart', as the counterexample shows.) -/
theorem claim_C2_amended (core : String → String → String) (secretKey : String)
    (paymentParams : List (String × String)) (db db1 : DBState)
    (h : completeOrder core secretKey paymentParams db = (db1, .ok ())) :
    (completeOrder core secretKey paymentParams db1).1.enrollments = db1.enrollments := by
  unfold completeOrder at h ⊢
  cases hsig : jsGet paymentParams "vnp_SecureHash" with
  | none => simp only [hsig] at h; exact absurd h (by simp)
  | some s =>
    simp only [hsig] at h ⊢
    by_cases hse : (s == "") = true
    · rw [if_pos hse] at h; exact absurd h (by simp)
    · rw [if_neg hse] at h ⊢
      by_cases hvm : (hmacSHA512 core secretKey
          (getPaymentURL (jsDelete paymentParams "vnp_SecureHash") false) != s) = true
      · rw [if_pos hvm] at h; exact absurd h (by simp)
      · rw [if_neg hvm] at h ⊢
        cases hoi : jsGet (jsDelete paymentParams "vnp_SecureHash") "vnp_OrderInfo" with
        | none => simp only [hoi] at h; exact absurd h (by simp)
        | some orderInfo =>
          simp only [hoi] at h ⊢
          cases hdec : decodeOrderInfo orderInfo with
          | none => simp only [hdec] at h; exact absurd h (by simp)
          | some info =>
            simp only [hdec] at h ⊢
            cases huser : info.idUser with
            | none => simp only [huser] at h; exact absurd h (by simp)
            | some u =>
              simp only [huser] at h ⊢
              cases hcc : copyCartToOrder u info.idCourses
                  ((jsParseInt ((jsGet (jsDelete paymentParams "vnp_SecureHash")
                    "vnp_Amount").getD "undefined")).map qdiv100) db with
              | mk dbc res =>
                rw [hcc] at h
                cases res with
                | error e => exact absurd h (by simp)
                | ok u0 =>
                  have hdb1E : db1.enrollments = dbc.enrollments := by
                    cases hd : info.idDiscount with
                    | some d =>
                      rw [hd] at h
                      have := congrArg Prod.fst h
                      simp only at this
                      rw [← this]
                      rfl
                    | none =>
                      rw [hd] at h
                      have := congrArg Prod.fst h
                      simp only at this
                      rw [← this]
                  have hdb1C : db1.carts = db.carts := by
                    obtain ⟨_, _, _, _, _, _, hC0, _⟩ :=
                      copyCartToOrder_spec _ _ _ _ _ hcc
                    cases hd : info.idDiscount with
                    | some d =>
                      rw [hd] at h
                      have := congrArg Prod.fst h
                      simp only at this
                      rw [← this]
                      exact hC0
                    | none =>
                      rw [hd] at h
                      have := congrArg Prod.fst h
                      simp only at this
                      rw [← this]
                      exact hC0
                  have hdb1I : db1.cartItems = dbc.cartItems := by
                    cases hd : info.idDiscount with
                    | some d =>
                      rw [hd] at h
                      have := congrArg Prod.fst h
                      simp only at this
                      rw [← this]
                      rfl
                    | none =>
                      rw [hd] at h
                      have := congrArg Prod.fst h
                      simp only at this
                      rw [← this]
                  have hdb1K : db1.courses = db.courses := by
                    obtain ⟨_, _, _, _, _, _, _, hK0, _⟩ :=
                      copyCartToOrder_spec _ _ _ _ _ hcc
                    cases hd : info.idDiscount with
                    | some d =>
                      rw [hd] at h
                      have := congrArg Prod.fst h
                      simp only at this
                      rw [← this]
                      exact hK0
                    | none =>
                      rw [hd] at h
                      have := congrArg Prod.fst h
                      simp only at this
                      rw [← this]
                      exact hK0
                  have hrun2 := copyCartToOrder_redelivery_noop u info.idCourses
                    ((jsParseInt ((jsGet (jsDelete paymentParams "vnp_SecureHash")
                      "vnp_Amount").getD "undefined")).map qdiv100)
                    ((jsParseInt ((jsGet (jsDelete paymentParams "vnp_SecureHash")
                      "vnp_Amount").getD "undefined")).map qdiv100)
                    db dbc db1 hcc hdb1E hdb1C hdb1I hdb1K
                  cases hcc2 : copyCartToOrder u info.idCourses
                      ((jsParseInt ((jsGet (jsDelete paymentParams "vnp_SecureHash")
                        "vnp_Amount").getD "undefined")).map qdiv100) db1 with
                  | mk dbc2 res2 =>
                    rw [hcc2] at hrun2
                    cases res2 with
                    | error e2 => exact hrun2
                    | ok unit2 =>
                      cases hd : info.idDiscount with
                      | some d => exact hrun2
                      | none => exact hrun2

/-- C2 amended witness: redelivering the Scenario A callback to the
post-commit state leaves its two enrollments exactly as they were. -/
theorem claim_C2_amended_witness :
    (completeOrder hmacConst "k" scenarioParams
        ({ scenarioDB with
             orders := [⟨1, 123, some 245⟩]
             orderItems := [⟨1, 10, 100⟩, ⟨1, 20, 150⟩]
             enrollments := [⟨123, 10, false, 1⟩, ⟨123, 20, false, 1⟩]
             cartItems := []
             studentDiscounts := []
             nextOrderId := 2 } : DBState)).1.enrollments =
      ({ scenarioDB with
           orders := [⟨1, 123, some 245⟩]
           orderItems := [⟨1, 10, 100⟩, ⟨1, 20, 150⟩]
           enrollments := [⟨123, 10, false, 1⟩, ⟨123, 20, false, 1⟩]
           cartItems := []
           studentDiscounts := []
           nextOrderId := 2 } : DBState).enrollments :=
  claim_C2_amended hmacConst "k" scenarioParams scenarioDB _ rfl

end LMS
